import Mathlib

/-!
# Code execution and verification engine (`backend/src/routes/code.js`)

A shallow embedding of the `/execute` handler: the entry-point resolver (two
regular expressions), the choice between the class harness and the function
harness, the per-test-case `try`/`catch`, the comparison by `JSON.stringify`,
and the aggregation of the report.

The external interpreter (`vm2`) is a parameter `vmRun`: the outcome of
`new VM(...).run(text)` as a function of the harness text, either a returned
value or a thrown value.  A fresh `VM` with no host bindings is created for
every test case, so the outcome depends on the text alone.

Plain data is modelled by `JsVal`: `undefined`, `null`, booleans, numbers,
strings, arrays, plain objects (own enumerable data properties in
enumeration order) and `Error` instances.  A number is an integer written in
full (`num`), another finite number given by its decimal digits and the
place of its point (`real`), `NaN`, or an infinity.  What a run returns is a
`Returned`: plain data, or any other value that `JSON.stringify` serialises
(an object with `toJSON`, a boxed primitive, a function, a symbol), given by
its type and its serialisation, or a value on which `JSON.stringify` throws
(a `BigInt`, a cyclic structure).  A thrown value is plain data or an
`Error` instance.
-/

namespace LearningCurve

/-! ## JavaScript values -/

/-- JavaScript values that can travel through the handler.  A finite number
is `num n` when it is an integer of magnitude below `10^21`, and otherwise
`real negative digits point`: the number of that sign and of magnitude
`digits × 10^(point - k)`, where `k` is the count of decimal digits of
`digits`, which is how `Number::toString` reads a number. -/
inductive JsVal where
  | undefined
  | null
  | bool (b : Bool)
  | num (n : Int)
  | real (negative : Bool) (digits : Nat) (point : Int)
  | nan
  | inf (positive : Bool)
  | str (s : String)
  | arr (xs : List JsVal)
  | obj (kvs : List (String × JsVal))
  | error (name message : String)

mutual
/-- Decidable equality of values. -/
def JsVal.decEq : (a b : JsVal) → Decidable (a = b)
  | .undefined, b => by
      cases b <;> first | exact isTrue rfl | exact isFalse (by intro h; cases h)
  | .null, b => by
      cases b <;> first | exact isTrue rfl | exact isFalse (by intro h; cases h)
  | .bool x, .bool y =>
      if h : x = y then isTrue (by rw [h]) else isFalse (by intro e; cases e; exact h rfl)
  | .bool _, .undefined | .bool _, .null | .bool _, .num _ | .bool _, .real _ _ _
  | .bool _, .nan | .bool _, .inf _ | .bool _, .str _ | .bool _, .arr _ | .bool _, .obj _
  | .bool _, .error _ _ =>
      isFalse (by intro h; cases h)
  | .num x, .num y =>
      if h : x = y then isTrue (by rw [h]) else isFalse (by intro e; cases e; exact h rfl)
  | .num _, .undefined | .num _, .null | .num _, .bool _ | .num _, .real _ _ _
  | .num _, .nan | .num _, .inf _ | .num _, .str _ | .num _, .arr _ | .num _, .obj _
  | .num _, .error _ _ =>
      isFalse (by intro h; cases h)
  | .real a s n, .real a2 s2 n2 =>
      if h : a = a2 ∧ s = s2 ∧ n = n2 then isTrue (by rw [h.1, h.2.1, h.2.2])
      else isFalse (by intro e; cases e; exact h ⟨rfl, rfl, rfl⟩)
  | .real _ _ _, .undefined | .real _ _ _, .null | .real _ _ _, .bool _
  | .real _ _ _, .num _ | .real _ _ _, .nan | .real _ _ _, .inf _ | .real _ _ _, .str _
  | .real _ _ _, .arr _ | .real _ _ _, .obj _ | .real _ _ _, .error _ _ =>
      isFalse (by intro h; cases h)
  | .nan, b => by
      cases b <;> first | exact isTrue rfl | exact isFalse (by intro h; cases h)
  | .inf x, .inf y =>
      if h : x = y then isTrue (by rw [h]) else isFalse (by intro e; cases e; exact h rfl)
  | .inf _, .undefined | .inf _, .null | .inf _, .bool _ | .inf _, .num _
  | .inf _, .real _ _ _ | .inf _, .nan | .inf _, .str _ | .inf _, .arr _ | .inf _, .obj _
  | .inf _, .error _ _ =>
      isFalse (by intro h; cases h)
  | .str x, .str y =>
      if h : x = y then isTrue (by rw [h]) else isFalse (by intro e; cases e; exact h rfl)
  | .str _, .undefined | .str _, .null | .str _, .bool _ | .str _, .num _
  | .str _, .real _ _ _ | .str _, .nan | .str _, .inf _ | .str _, .arr _ | .str _, .obj _
  | .str _, .error _ _ =>
      isFalse (by intro h; cases h)
  | .arr xs, .arr ys =>
      match JsVal.decEqList xs ys with
      | isTrue h => isTrue (by rw [h])
      | isFalse h => isFalse (by intro e; cases e; exact h rfl)
  | .arr _, .undefined | .arr _, .null | .arr _, .bool _ | .arr _, .num _
  | .arr _, .real _ _ _ | .arr _, .nan | .arr _, .inf _ | .arr _, .str _ | .arr _, .obj _
  | .arr _, .error _ _ =>
      isFalse (by intro h; cases h)
  | .obj xs, .obj ys =>
      match JsVal.decEqFields xs ys with
      | isTrue h => isTrue (by rw [h])
      | isFalse h => isFalse (by intro e; cases e; exact h rfl)
  | .obj _, .undefined | .obj _, .null | .obj _, .bool _ | .obj _, .num _
  | .obj _, .real _ _ _ | .obj _, .nan | .obj _, .inf _ | .obj _, .str _ | .obj _, .arr _
  | .obj _, .error _ _ =>
      isFalse (by intro h; cases h)
  | .error n m, .error n2 m2 =>
      if h : n = n2 ∧ m = m2 then isTrue (by rw [h.1, h.2])
      else isFalse (by intro e; cases e; exact h ⟨rfl, rfl⟩)
  | .error _ _, .undefined | .error _ _, .null | .error _ _, .bool _ | .error _ _, .num _
  | .error _ _, .real _ _ _ | .error _ _, .nan | .error _ _, .inf _ | .error _ _, .str _
  | .error _ _, .arr _ | .error _ _, .obj _ =>
      isFalse (by intro h; cases h)
/-- Decidable equality of lists of values. -/
def JsVal.decEqList : (xs ys : List JsVal) → Decidable (xs = ys)
  | [], [] => isTrue rfl
  | [], _ :: _ => isFalse (by intro h; cases h)
  | _ :: _, [] => isFalse (by intro h; cases h)
  | x :: xs, y :: ys =>
      match JsVal.decEq x y, JsVal.decEqList xs ys with
      | isTrue h, isTrue k => isTrue (by rw [h, k])
      | isFalse h, _ => isFalse (by intro e; cases e; exact h rfl)
      | _, isFalse k => isFalse (by intro e; cases e; exact k rfl)
/-- Decidable equality of property lists. -/
def JsVal.decEqFields : (xs ys : List (String × JsVal)) → Decidable (xs = ys)
  | [], [] => isTrue rfl
  | [], _ :: _ => isFalse (by intro h; cases h)
  | _ :: _, [] => isFalse (by intro h; cases h)
  | (k, x) :: xs, (l, y) :: ys =>
      if hk : k = l then
        match JsVal.decEq x y, JsVal.decEqFields xs ys with
        | isTrue h, isTrue t => isTrue (by rw [hk, h, t])
        | isFalse h, _ => isFalse (by intro e; cases e; exact h rfl)
        | _, isFalse t => isFalse (by intro e; cases e; exact t rfl)
      else isFalse (by intro e; cases e; exact hk rfl)
end

instance : DecidableEq JsVal := JsVal.decEq

instance : Inhabited JsVal := ⟨JsVal.undefined⟩

/-- The `TypeError` instances raised by the language itself. -/
def typeError (message : String) : JsVal := .error "TypeError" message

/-- `Array.isArray(v)`. -/
def isArray : JsVal → Bool
  | .arr _ => true
  | _ => false

/-- `v.length` of an array (only read after `Array.isArray(v)` held). -/
def arrayLength : JsVal → Nat
  | .arr xs => xs.length
  | _ => 0

/-- Element `i` of an array as array destructuring reads it: `undefined`
when the array is shorter. -/
def elemAt : JsVal → Nat → JsVal
  | .arr xs, i => xs.getD i .undefined
  | _, _ => .undefined

/-- The type of a value: `undefined`, `null`, boolean, number, string,
sequence (array), mapping (object), function, symbol or `BigInt`. -/
inductive JsType where
  | Undefined
  | Null
  | Boolean
  | Number
  | Text
  | Sequence
  | Mapping
  | Function
  | Symbol
  | BigInt

deriving instance DecidableEq, Repr for JsType

/-- The type of a plain value; `NaN` and the infinities are numbers, an
`Error` instance is an object. -/
def jsType : JsVal → JsType
  | .undefined => .Undefined
  | .null => .Null
  | .bool _ => .Boolean
  | .num _ => .Number
  | .real _ _ _ => .Number
  | .nan => .Number
  | .inf _ => .Number
  | .str _ => .Text
  | .arr _ => .Sequence
  | .obj _ => .Mapping
  | .error _ _ => .Mapping

/-! ## `JSON.stringify` -/

/-- The text `Number::toString` gives for a finite number, from the decimal
representation it works on: the digits `s`, `k` of them, and `n` such that
the magnitude is `s × 10^(n - k)`.  The digits are written in full when
`k ≤ n ≤ 21`, with a point inside when `0 < n ≤ 21`, after `0.` and zeros
when `-6 < n ≤ 0`, and otherwise with an exponent. -/
def numberText (negative : Bool) (s : Nat) (n : Int) : String :=
  let digits := (toString s).data
  let k : Int := digits.length
  let exponent := (if n - 1 < 0 then ['-'] else ['+']) ++ (toString (n - 1).natAbs).data
  let body : List Char :=
    if k ≤ n ∧ n ≤ 21 then digits ++ List.replicate (n - k).toNat '0'
    else if 0 < n ∧ n ≤ 21 then digits.take n.toNat ++ ['.'] ++ digits.drop n.toNat
    else if -6 < n ∧ n ≤ 0 then ['0', '.'] ++ List.replicate (-n).toNat '0' ++ digits
    else if k = 1 then digits ++ ['e'] ++ exponent
    else digits.take 1 ++ ['.'] ++ digits.drop 1 ++ ['e'] ++ exponent
  String.mk ((if negative then ['-'] else []) ++ body)

/-- One hexadecimal digit, lower case. -/
def hexDigit (n : Nat) : Char :=
  if n < 10 then Char.ofNat (48 + n) else Char.ofNat (87 + n)

/-- The escape `JSON.stringify` writes for one character of a string. -/
def jsonEscapeChar (c : Char) : List Char :=
  if c = '"' then ['\\', '"']
  else if c = '\\' then ['\\', '\\']
  else if c.toNat = 8 then ['\\', 'b']
  else if c.toNat = 12 then ['\\', 'f']
  else if c.toNat = 10 then ['\\', 'n']
  else if c.toNat = 13 then ['\\', 'r']
  else if c.toNat = 9 then ['\\', 't']
  else if c.toNat < 32 then
    ['\\', 'u', '0', '0', hexDigit (c.toNat / 16), hexDigit (c.toNat % 16)]
  else [c]

/-- The quoted form of a string (`QuoteJSONString`). -/
def jsonQuote (s : String) : String :=
  String.mk (['"'] ++ (s.toList.map jsonEscapeChar).flatten ++ ['"'])

mutual
/-- The result of `JSON.stringify(v)`: a string, or `undefined` (`none`). -/
def stringify : JsVal → Option String
  | .undefined => none
  | .null => some "null"
  | .bool b => some (if b then "true" else "false")
  | .num n => some (toString n)
  | .real negative digits point => some (numberText negative digits point)
  | .nan => some "null"
  | .inf _ => some "null"
  | .str s => some (jsonQuote s)
  | .arr xs => some ("[" ++ ",".intercalate (stringifyItems xs) ++ "]")
  | .obj kvs => some ("\x7b" ++ ",".intercalate (stringifyFields kvs) ++ "\x7d")
  | .error _ _ => some "\x7b\x7d"
/-- Serialised elements of an array: `undefined` is written `null`. -/
def stringifyItems : List JsVal → List String
  | [] => []
  | x :: xs => (stringify x).getD "null" :: stringifyItems xs
/-- Serialised properties of an object: a property whose value has no
serialisation is left out. -/
def stringifyFields : List (String × JsVal) → List String
  | [] => []
  | (k, v) :: rest =>
      match stringify v with
      | none => stringifyFields rest
      | some s => (jsonQuote k ++ ":" ++ s) :: stringifyFields rest
end

/-! ## Values returned by a run -/

/-- A value a run can return, as the handler can observe it: plain data; or
any other value, of type `type`, on which `JSON.stringify` returns
`serialised`, a string or `undefined` (an object with `toJSON` such as a
`Date`; a boxed primitive; an array or an object that holds such values, or
accessors; a function or a symbol, for which it returns `undefined`); or a
value of type `type` on which `JSON.stringify` throws
`thrown` (a `TypeError` for a `BigInt` or a cyclic structure, or whatever a
`toJSON` method or an accessor throws).  A value is taken to be serialised
alike each time it is. -/
inductive Returned where
  | plain (value : JsVal)
  | other (type : JsType) (serialised : Option String)
  | unserialisable (type : JsType) (thrown : JsVal)

deriving instance DecidableEq for Returned

/-- The type of a returned value. -/
def Returned.type : Returned → JsType
  | .plain value => jsType value
  | .other type _ => type
  | .unserialisable type _ => type

/-- The call `JSON.stringify(output)` on a returned value: a string,
`undefined` (`none`), or the value it throws. -/
def jsonStringify : Returned → Except JsVal (Option String)
  | .plain value => .ok (stringify value)
  | .other _ serialised => .ok serialised
  | .unserialisable _ thrown => .error thrown

/-! ## Conversions and property reads used by the handler -/

mutual
/-- The string a template literal splices for `v` (the `ToString`
conversion); it throws a `TypeError` on an object that cannot be converted. -/
def toStr : JsVal → Except JsVal String
  | .undefined => .ok "undefined"
  | .null => .ok "null"
  | .bool b => .ok (if b then "true" else "false")
  | .num n => .ok (toString n)
  | .real negative digits point => .ok (numberText negative digits point)
  | .nan => .ok "NaN"
  | .inf positive => .ok (if positive then "Infinity" else "-Infinity")
  | .str s => .ok s
  | .arr xs =>
      match joinItems xs with
      | .ok parts => .ok (",".intercalate parts)
      | .error e => .error e
  | .obj kvs =>
      if kvs.any (fun kv => kv.1 == "toString") then
        .error (typeError "Cannot convert object to primitive value")
      else .ok "[object Object]"
  | .error name message =>
      .ok (if name = "" then message else if message = "" then name
        else name ++ ": " ++ message)
/-- The pieces `Array.prototype.join` concatenates: `null` and `undefined`
give the empty string. -/
def joinItems : List JsVal → Except JsVal (List String)
  | [] => .ok []
  | x :: xs =>
      match (match x with
        | .undefined => Except.ok ""
        | .null => Except.ok ""
        | y => toStr y) with
      | .error e => .error e
      | .ok s =>
        match joinItems xs with
        | .error e => .error e
        | .ok rest => .ok (s :: rest)
end

/-- The read `error.message` in the per-test `catch` clause: the property
value, or the message of the `TypeError` the read itself throws when the
caught value is `null` or `undefined` (in the wording of V8). -/
def readMessage : JsVal → Except String JsVal
  | .undefined => .error "Cannot read properties of undefined (reading \x27message\x27)"
  | .null => .error "Cannot read properties of null (reading \x27message\x27)"
  | .error _ message => .ok (.str message)
  | .obj kvs => .ok ((kvs.lookup "message").getD .undefined)
  | _ => .ok .undefined

/-! ## Entry-point resolver -/

/-- The class `\s` of a JavaScript regular expression. -/
def isSpace (c : Char) : Bool :=
  let n := c.toNat
  n = 9 || n = 10 || n = 11 || n = 12 || n = 13 || n = 32 || n = 160 || n = 5760 ||
    (8192 ≤ n && n ≤ 8202) || n = 8232 || n = 8233 || n = 8239 || n = 8287 ||
    n = 12288 || n = 65279

/-- The class `\w` of a JavaScript regular expression: `[A-Za-z0-9_]`. -/
def isWord (c : Char) : Bool :=
  let n := c.toNat
  (65 ≤ n && n ≤ 90) || (97 ≤ n && n ≤ 122) || (48 ≤ n && n ≤ 57) || n = 95

/-- Whether `text` begins with the characters of `kw`. -/
def startsWith : List Char → List Char → Bool
  | [], _ => true
  | _ :: _, [] => false
  | k :: ks, c :: cs => k == c && startsWith ks cs

/-- The pattern `kw\s+(\w+)` tried at the very start of `text`: the captured
group, when it matches there.  Both `\s+` and `\w+` are greedy; giving back
white space cannot help, since what follows it would again be white space. -/
def matchHere (kw text : List Char) : Option (List Char) :=
  if startsWith kw text then
    match text.drop kw.length with
    | [] => none
    | c :: rest =>
      if isSpace c then
        let name := ((c :: rest).dropWhile isSpace).takeWhile isWord
        if name.isEmpty then none else some name
      else none
  else none

/-- The group captured by `text.match(/kw\s+(\w+)/)`: the pattern is tried
at every start position from the left and the first success wins. -/
def regexMatch (kw : List Char) : List Char → Option (List Char)
  | [] => matchHere kw []
  | c :: cs =>
    match matchHere kw (c :: cs) with
    | some name => some name
    | none => regexMatch kw cs

/-- The capture `functionMatch[1]` of `code.match(/function\s+(\w+)/)`, or
`none` when `functionMatch` is `null`. -/
def functionMatch (code : String) : Option String :=
  (regexMatch "function".toList code.toList).map String.mk

/-- The capture `classMatch[1]` of `code.match(/class\s+(\w+)/)`, or `none`
when `classMatch` is `null`. -/
def classMatch (code : String) : Option String :=
  (regexMatch "class".toList code.toList).map String.mk

/-- The value of
`functionMatch ? functionMatch[1] : (classMatch ? classMatch[1] : null)`. -/
def funcName (code : String) : Option String :=
  match functionMatch code with
  | some name => some name
  | none =>
    match classMatch code with
    | some name => some name
    | none => none

/-- The kind of the resolved entry point. -/
inductive EntryKind where
  | Function
  | Class

deriving instance DecidableEq, Repr for EntryKind

/-- The resolved entry point: its name and the kind of declaration that
supplied the name. -/
structure EntryDescriptor where
  name : String
  kind : EntryKind

deriving instance DecidableEq, Repr for EntryDescriptor

/-- The entry point the ternary of `funcName` resolves, with the branch that
supplied the name recorded as its kind. -/
def resolveEntry (code : String) : Option EntryDescriptor :=
  match functionMatch code with
  | some name => some { name := name, kind := .Function }
  | none =>
    match classMatch code with
    | some name => some { name := name, kind := .Class }
    | none => none

/-! ## Harness texts -/

/-- The template literal `classTestCode`. -/
def classTestCode (code name capacity operations : String) : String :=
  "\n            " ++ code ++
  "\n            \n            const cache = new " ++ name ++ "(" ++ capacity ++ ");" ++
  "\n            const results = [];" ++
  "\n            \n            for (const op of " ++ operations ++ ") \x7b" ++
  "\n              if (op[0] === \x27put\x27) \x7b" ++
  "\n                cache.put(op[1], op[2]);" ++
  "\n                results.push(null);" ++
  "\n              \x7d else if (op[0] === \x27get\x27) \x7b" ++
  "\n                results.push(cache.get(op[1]));" ++
  "\n              \x7d" ++
  "\n            \x7d" ++
  "\n            \n            results;" ++
  "\n          "

/-- The template literal `testCode`. -/
def testCode (code name args : String) : String :=
  "\n            " ++ code ++
  "\n            \n            const args = " ++ args ++ ";" ++
  "\n            " ++ name ++ "(...args);" ++
  "\n          "

/-- The text a template literal splices for `JSON.stringify(v)`. -/
def stringifyText (v : JsVal) : String :=
  (stringify v).getD "undefined"

/-! ## The `/execute` handler -/

/-- One test case of the request. -/
structure TestCase where
  input : JsVal
  expected : JsVal

deriving instance DecidableEq for TestCase

/-- One entry of `results`.  A key the handler does not set is `none`; a key
set to `undefined` holds it (and is dropped by `res.json`). -/
structure ExecutionResult where
  input : JsVal
  expected : JsVal
  output : Option Returned
  error : Option JsVal
  passed : Bool

deriving instance DecidableEq for ExecutionResult

/-- The variables `results` and `allPassed` of the handler. -/
structure LoopState where
  results : List ExecutionResult
  allPassed : Bool

deriving instance DecidableEq for LoopState

/-- The condition of the `if` on line 38:
`classMatch && Array.isArray(testCase.input) && testCase.input.length === 2`. -/
def usesClassHarness (code : String) (tc : TestCase) : Bool :=
  (classMatch code).isSome && isArray tc.input && arrayLength tc.input == 2

/-- The body of the per-test `try` block: build the harness text, run it in a
fresh VM, serialise the output (which can throw) and the expected value,
compare, push the result. -/
def tryBody (vmRun : String → Except JsVal Returned) (code name : String)
    (st : LoopState) (tc : TestCase) : Except JsVal LoopState :=
  if usesClassHarness code tc then
    let capacity := elemAt tc.input 0
    let operations := elemAt tc.input 1
    match toStr capacity with
    | .error e => .error e
    | .ok capacityText =>
      match vmRun (classTestCode code name capacityText (stringifyText operations)) with
      | .error e => .error e
      | .ok output =>
        match jsonStringify output with
        | .error e => .error e
        | .ok text =>
          let passed : Bool := decide (text = stringify tc.expected)
          .ok {
            results := st.results ++ [{
              input := tc.input, expected := tc.expected,
              output := some output, error := none, passed := passed }],
            allPassed := if !passed then false else st.allPassed }
  else
    match vmRun (testCode code name (stringifyText tc.input)) with
    | .error e => .error e
    | .ok output =>
      match jsonStringify output with
      | .error e => .error e
      | .ok text =>
        let passed : Bool := decide (text = stringify tc.expected)
        .ok {
          results := st.results ++ [{
            input := tc.input, expected := tc.expected,
            output := some output, error := none, passed := passed }],
          allPassed := if !passed then false else st.allPassed }

/-- The body of the per-test `catch (error)` clause.  Reading `error.message`
can itself throw; that exception leaves the loop. -/
def catchBody (st : LoopState) (tc : TestCase) (error : JsVal) : Except String LoopState :=
  match readMessage error with
  | .error m => .error m
  | .ok message =>
    .ok {
      results := st.results ++ [{
        input := tc.input, expected := tc.expected,
        output := none, error := some message, passed := false }],
      allPassed := false }

/-- One iteration of `for (const testCase of testCases)`. -/
def iteration (vmRun : String → Except JsVal Returned) (code name : String)
    (st : LoopState) (tc : TestCase) : Except String LoopState :=
  match tryBody vmRun code name st tc with
  | .ok st2 => .ok st2
  | .error e => catchBody st tc e

/-- The loop over the test cases, from the state `st`. -/
def runLoop (vmRun : String → Except JsVal Returned) (code name : String) :
    List TestCase → LoopState → Except String LoopState
  | [], st => .ok st
  | tc :: rest, st =>
    match iteration vmRun code name st tc with
    | .error m => .error m
    | .ok st2 => runLoop vmRun code name rest st2

/-- The request body: a key that is missing is `none`. -/
structure RequestBody where
  code : Option String
  testCases : Option (List TestCase)
  taskId : JsVal

deriving instance DecidableEq for RequestBody

/-- The response: status code and the keys of the JSON payload (`none` for a
key the payload does not have). -/
structure Response where
  status : Nat
  error : Option JsVal
  allPassed : Option Bool
  results : Option (List ExecutionResult)
  taskId : Option JsVal

deriving instance DecidableEq for Response

/-- The payload of line 11. -/
def validationFailure : Response :=
  { status := 400, error := some (.str "Code and test cases are required"),
    allPassed := none, results := none, taskId := none }

/-- The payload of lines 23-27. -/
def entryNotFound : Response :=
  { status := 400, error := some (.str "Could not find function or class name in code"),
    allPassed := some false, results := some [], taskId := none }

/-- The payload of the outer `catch` (lines 109-113), for an exception whose
`message` is `m`. -/
def internalFailure (m : String) : Response :=
  { status := 500, error := some (.str m), allPassed := some false,
    results := some [], taskId := none }

/-- The payload of lines 102-106. -/
def report (st : LoopState) (taskId : JsVal) : Response :=
  { status := 200, error := none, allPassed := some st.allPassed,
    results := some st.results, taskId := some taskId }

/-- The handler of `POST /execute`.  `!code` holds for a missing key and for
the empty string; `!testCases` holds for a missing key only (an array is
truthy); `!funcName` holds for `null` and for the empty string. -/
def execute (vmRun : String → Except JsVal Returned) (body : RequestBody) : Response :=
  match body.code, body.testCases with
  | some code, some testCases =>
    if code = "" then validationFailure
    else
      match funcName code with
      | none => entryNotFound
      | some name =>
        if name = "" then entryNotFound
        else
          match runLoop vmRun code name testCases { results := [], allPassed := true } with
          | .ok st => report st body.taskId
          | .error m => internalFailure m
  | _, _ => validationFailure

/-- A field of a result is populated when its key is set to a value other
than `undefined`. -/
def populated : Option JsVal → Bool
  | none => false
  | some .undefined => false
  | some _ => true

/-- The `output` of a result is populated in the response when its key is
set and `res.json` writes it, which it does when the serialisation of the
value is a string. -/
def outputPopulated : Option Returned → Bool
  | none => false
  | some output =>
    match jsonStringify output with
    | .ok (some _) => true
    | _ => false

/-! ## What the class harness computes

The statements of `classTestCode` after the submitted code, run against a
class given by the behaviour of its constructor and of its `put` and `get`
methods on an instance state `σ`.  The constructor receives the text spliced
between the parentheses of `new Name(...)`; the loop runs over the value the
spliced JSON literal denotes, which for a value of the request is that value. -/

/-- The behaviour of the submitted class. -/
structure JsClass (σ : Type) where
  construct : String → Except JsVal σ
  put : σ → JsVal → JsVal → Except JsVal (JsVal × σ)
  get : σ → JsVal → Except JsVal (JsVal × σ)

/-- The read `op[i]`. -/
def indexRead : JsVal → Nat → Except JsVal JsVal
  | .undefined, i =>
      .error (typeError
        ("Cannot read properties of undefined (reading \x27" ++ toString i ++ "\x27)"))
  | .null, i =>
      .error (typeError
        ("Cannot read properties of null (reading \x27" ++ toString i ++ "\x27)"))
  | .arr xs, i => .ok (xs.getD i .undefined)
  | .obj kvs, i => .ok ((kvs.lookup (toString i)).getD .undefined)
  | .str s, i =>
      .ok (match s.toList.get? i with
        | some c => .str (String.singleton c)
        | none => .undefined)
  | _, _ => .ok .undefined

/-- The values `for (const op of v)` runs over; a value that is not iterable
throws. -/
def iterate : JsVal → Except JsVal (List JsVal)
  | .arr xs => .ok xs
  | .str s => .ok (s.toList.map (fun c => JsVal.str (String.singleton c)))
  | _ => .error (typeError "the value is not iterable")

/-- The body of the `for` loop of `classTestCode`, over the remaining
operations, from the instance state `cache` and the array `results`. -/
def harnessLoop {σ : Type} (cls : JsClass σ) :
    List JsVal → σ → List JsVal → Except JsVal (List JsVal)
  | [], _, results => .ok results
  | op :: rest, cache, results =>
    match indexRead op 0 with
    | .error e => .error e
    | .ok tag =>
      if tag = .str "put" then
        match indexRead op 1 with
        | .error e => .error e
        | .ok a =>
          match indexRead op 2 with
          | .error e => .error e
          | .ok b =>
            match cls.put cache a b with
            | .error e => .error e
            | .ok (_, cache2) => harnessLoop cls rest cache2 (results ++ [.null])
      else if tag = .str "get" then
        match indexRead op 1 with
        | .error e => .error e
        | .ok a =>
          match cls.get cache a with
          | .error e => .error e
          | .ok (v, cache2) => harnessLoop cls rest cache2 (results ++ [v])
      else harnessLoop cls rest cache results

/-- The completion value of the class harness: `new Name(capacityText)`, then
the loop over `operations`, then `results`. -/
def classHarness {σ : Type} (cls : JsClass σ) (capacityText : String) (operations : JsVal) :
    Except JsVal JsVal :=
  match cls.construct capacityText with
  | .error e => .error e
  | .ok cache =>
    match iterate operations with
    | .error e => .error e
    | .ok ops =>
      match harnessLoop cls ops cache [] with
      | .error e => .error e
      | .ok results => .ok (.arr results)

/-- An operation of the two-tag scheme. -/
inductive CacheOp where
  | put (key value : JsVal)
  | get (key : JsVal)

deriving instance DecidableEq for CacheOp

/-- The request encoding of an operation: `["put", key, value]` or
`["get", key]`. -/
def CacheOp.toJs : CacheOp → JsVal
  | .put key value => .arr [.str "put", key, value]
  | .get key => .arr [.str "get", key]

/-- The per-operation results in the words of the specification: for each
operation in order, call the matching method; record `null` for a `put` and
the returned value for a `get`. -/
def perOperationResults {σ : Type} (cls : JsClass σ) :
    List CacheOp → σ → Except JsVal (List JsVal)
  | [], _ => .ok []
  | .put key value :: rest, cache =>
    match cls.put cache key value with
    | .error e => .error e
    | .ok (_, cache2) =>
      match perOperationResults cls rest cache2 with
      | .error e => .error e
      | .ok out => .ok (.null :: out)
  | .get key :: rest, cache =>
    match cls.get cache key with
    | .error e => .error e
    | .ok (v, cache2) =>
      match perOperationResults cls rest cache2 with
      | .error e => .error e
      | .ok out => .ok (v :: out)

/-- The number a non-empty string of decimal digits denotes. -/
def parseDecimal (cs : List Char) : Option Nat :=
  if cs.isEmpty || !cs.all Char.isDigit then none
  else some (cs.foldl (fun acc c => 10 * acc + (c.toNat - 48)) 0)

/-- The state of a least-recently-used cache: its capacity and its entries,
most recently used first. -/
structure LruState where
  capacity : Nat
  entries : List (JsVal × JsVal)

/-- A least-recently-used cache with `get(key)` answering `-1` for an absent
key and `put(key, value)` evicting the least recently used entry when the
capacity is exceeded. -/
def lruCache : JsClass LruState where
  construct := fun text =>
    match parseDecimal text.toList with
    | some n => .ok { capacity := n, entries := [] }
    | none => .error (.error "SyntaxError" "Unexpected token")
  put := fun cache key value =>
    let others := cache.entries.filter (fun kv => decide (kv.1 ≠ key))
    .ok (.undefined,
      { cache with entries := ((key, value) :: others).take cache.capacity })
  get := fun cache key =>
    match cache.entries.find? (fun kv => decide (kv.1 = key)) with
    | none => .ok (.num (-1), cache)
    | some kv =>
      .ok (kv.2,
        { cache with
          entries := kv :: cache.entries.filter (fun kv2 => decide (kv2.1 ≠ key)) })

/-! ## Derived views used in the statements -/

/-- The text handed to `vm.run` for a test case, or the exception thrown
while the text is built. -/
def harnessText (code name : String) (tc : TestCase) : Except JsVal String :=
  if usesClassHarness code tc then
    match toStr (elemAt tc.input 0) with
    | .error e => .error e
    | .ok capacityText =>
      .ok (classTestCode code name capacityText (stringifyText (elemAt tc.input 1)))
  else .ok (testCode code name (stringifyText tc.input))

/-- The outcome of the `try` block up to and including `vm.run`: the value
the execution returned, or the value that was thrown. -/
def attempt (vmRun : String → Except JsVal Returned) (code name : String) (tc : TestCase) :
    Except JsVal Returned :=
  match harnessText code name tc with
  | .error e => .error e
  | .ok text => vmRun text

/-- The value the per-test `catch` clause receives, if the `try` block
throws, for an outcome of the run: the value the run throws, or the value
`JSON.stringify(output)` throws. -/
def caughtIn (outcome : Except JsVal Returned) : Option JsVal :=
  match outcome with
  | .error e => some e
  | .ok output =>
    match jsonStringify output with
    | .error e => some e
    | .ok _ => none

/-- The value the per-test `catch` clause of the handler receives for a test
case, if any. -/
def caught (vmRun : String → Except JsVal Returned) (code name : String) (tc : TestCase) :
    Option JsVal :=
  caughtIn (attempt vmRun code name tc)

/-- The slot the per-test `catch` clause pushes for the caught value, or the
message of the exception its read of `error.message` raises. -/
def caughtSlot (tc : TestCase) (e : JsVal) : Except String ExecutionResult :=
  match readMessage e with
  | .error m => .error m
  | .ok message =>
    .ok { input := tc.input, expected := tc.expected, output := none,
          error := some message, passed := false }

/-- The result slot one iteration pushes for a test case whose run has the
given outcome, or the message of the exception that leaves the loop. -/
def slotOf (tc : TestCase) (outcome : Except JsVal Returned) : Except String ExecutionResult :=
  match outcome with
  | .error e => caughtSlot tc e
  | .ok output =>
    match jsonStringify output with
    | .error e => caughtSlot tc e
    | .ok text =>
      .ok { input := tc.input, expected := tc.expected, output := some output, error := none,
            passed := decide (text = stringify tc.expected) }

/-- The result slot one iteration of the handler pushes for a test case, or
the message of the exception that leaves the loop. -/
def slotFor (vmRun : String → Except JsVal Returned) (code name : String) (tc : TestCase) :
    Except String ExecutionResult :=
  slotOf tc (attempt vmRun code name tc)

/-- The slots of a list of test cases, in order, unless an exception leaves
the loop. -/
def slotsFor (vmRun : String → Except JsVal Returned) (code name : String) :
    List TestCase → Except String (List ExecutionResult)
  | [] => .ok []
  | tc :: rest =>
    match slotFor vmRun code name tc with
    | .error m => .error m
    | .ok r =>
      match slotsFor vmRun code name rest with
      | .error m => .error m
      | .ok rs => .ok (r :: rs)

/-- The logical AND of the `passed` flags of a list of results. -/
def allOfPassed (rs : List ExecutionResult) : Bool :=
  rs.all (fun r => r.passed)

/-! ## Declarations in a source text, stated independently of the matcher -/

/-- The source text `text` has, at offset `i`, a declaration with keyword
`kw` and name `name`: the keyword, then white space, then the name as a
maximal run of word characters. -/
def DeclAt (kw text : List Char) (i : Nat) (name : List Char) : Prop :=
  ∃ pre ws rest, text = pre ++ (kw ++ (ws ++ (name ++ rest))) ∧ pre.length = i ∧
    ws ≠ [] ∧ (∀ c ∈ ws, isSpace c = true) ∧
    name ≠ [] ∧ (∀ c ∈ name, isWord c = true) ∧
    (∀ c, rest.head? = some c → isWord c = false)

/-- The source text contains at least one declaration with keyword `kw`. -/
def HasDecl (kw text : List Char) : Prop :=
  ∃ i name, DeclAt kw text i name

/-- The name `name` is the name of the first declaration with keyword `kw`:
it stands at some offset and no declaration stands at a smaller one. -/
def FirstDecl (kw text name : List Char) : Prop :=
  ∃ i, DeclAt kw text i name ∧ ∀ j, j < i → ∀ other, ¬ DeclAt kw text j other

/-! ## Sample submissions and their interpreter outcomes -/

/-- The outcome of every run of a submission whose function body is
`throw null`: the run throws `null`. -/
def vmThrowsNull : String → Except JsVal Returned :=
  fun _ => .error .null

/-- The outcome of every run of a submission whose function body is
`throw "boom"`: the run throws the string. -/
def vmThrowsString : String → Except JsVal Returned :=
  fun _ => .error (.str "boom")

/-- The outcome of every run of a submission whose function has no `return`:
the call returns `undefined`. -/
def vmReturnsUndefined : String → Except JsVal Returned :=
  fun _ => .ok (.plain .undefined)

/-- The outcome of every run of `function add(a, b) { return a + b; }` on the
arguments `[2, 3]`. -/
def vmReturnsFive : String → Except JsVal Returned :=
  fun _ => .ok (.plain (.num 5))

/-- The outcome of every run of a submission whose function returns the
`BigInt` `1n`; `JSON.stringify` throws a `TypeError` on it. -/
def vmReturnsBigInt : String → Except JsVal Returned :=
  fun _ => .ok (.unserialisable .BigInt (typeError "Do not know how to serialize a BigInt"))

/-- The outcome of every run of a submission whose function returns a
function, for which `JSON.stringify` answers `undefined`. -/
def vmReturnsFunction : String → Except JsVal Returned :=
  fun _ => .ok (.other .Function none)

/-- The source `function f(x) { if (x === 0) throw null; return x; }`. -/
def guardedSource : String :=
  "function f(x) \x7b if (x === 0) throw null; return x; \x7d"

/-- The outcomes of `guardedSource`: the call `f(0)` throws `null`, the call
`f(1)` returns `1`. -/
def vmGuarded : String → Except JsVal Returned :=
  fun text =>
    if text = testCode guardedSource "f" "[0]" then .error .null
    else if text = testCode guardedSource "f" "[1]" then .ok (.plain (.num 1))
    else .error (.error "Error" "not a run of this example")

/-- A source with a function declaration followed by a class declaration:
`function add(a, b) { return a + b; }` and, on the next line,
`class Helper {}`. -/
def mixedSource : String :=
  "function add(a, b) \x7b return a + b; \x7d\nclass Helper \x7b\x7d"

/-- A source with a class declaration followed by a function declaration. -/
def classFirstSource : String :=
  "class Stack \x7b\x7d\nfunction solve(a) \x7b return a; \x7d"

/-- A least-recently-used cache written as a class over a `Map`; `lruCache`
is its behaviour. -/
def lruSource : String :=
  "class LRUCache \x7b\n" ++
  "  constructor(capacity) \x7b this.capacity = capacity; this.map = new Map(); \x7d\n" ++
  "  get(key) \x7b\n" ++
  "    if (!this.map.has(key)) return -1;\n" ++
  "    const value = this.map.get(key);\n" ++
  "    this.map.delete(key);\n" ++
  "    this.map.set(key, value);\n" ++
  "    return value;\n" ++
  "  \x7d\n" ++
  "  put(key, value) \x7b\n" ++
  "    this.map.delete(key);\n" ++
  "    this.map.set(key, value);\n" ++
  "    if (this.map.size > this.capacity) this.map.delete(this.map.keys().next().value);\n" ++
  "  \x7d\n" ++
  "\x7d"

/-- The operations of the stateful scenario:
`[["put",1,1],["put",2,2],["get",1],["put",3,3],["get",2]]`. -/
def scenarioOps : List CacheOp :=
  [.put (.num 1) (.num 1), .put (.num 2) (.num 2), .get (.num 1), .put (.num 3) (.num 3),
   .get (.num 2)]

/-- The outcome of every run of a submission whose function body is
`throw undefined`: the run throws `undefined`. -/
def vmThrowsUndefined : String → Except JsVal Returned :=
  fun _ => .error .undefined

/-! ## The client: `runTests` and the local fallback (`CodeEditor.jsx`, `api.js`)

The local run (`new Function('args', text)` followed by the call
`fn(testCase.input)`) is a parameter `localRun`: its outcome for a text and
an argument value in a state `G` of the page's global scope, together with
the state it leaves. -/

/-- The template literal `wrappedCode`. -/
def wrappedCode (userCode name : String) : String :=
  "\n          " ++ userCode ++
  "\n          return " ++ name ++ "(...args);" ++
  "\n        "

/-- The function `getFunctionName`: the first function name, else the first
class name, else `solution`. -/
def getFunctionName (code : String) : String :=
  match functionMatch code with
  | some name => name
  | none =>
    match classMatch code with
    | some name => name
    | none => "solution"

/-- The value `runTestsLocally` returns. -/
structure LocalReport where
  allPassed : Bool
  results : List ExecutionResult

deriving instance DecidableEq for LocalReport

/-- The body of the `try` block of `runTestsLocally`; the call of
`JSON.stringify` on the output can throw. -/
def localTryBody {G : Type} (localRun : G → String → JsVal → Except JsVal Returned × G)
    (userCode : String) (g : G) (st : LoopState) (tc : TestCase) :
    Except JsVal LoopState × G :=
  match localRun g (wrappedCode userCode (getFunctionName userCode)) tc.input with
  | (.error e, g2) => (.error e, g2)
  | (.ok output, g2) =>
    match jsonStringify output with
    | .error e => (.error e, g2)
    | .ok text =>
      let passed : Bool := decide (text = stringify tc.expected)
      (.ok {
        results := st.results ++ [{
          input := tc.input, expected := tc.expected,
          output := some output, error := none, passed := passed }],
        allPassed := if !passed then false else st.allPassed }, g2)

/-- The body of the `catch (error)` clause of `runTestsLocally`; reading
`error.message` can itself throw. -/
def localCatchBody (st : LoopState) (tc : TestCase) (error : JsVal) : Except String LoopState :=
  match readMessage error with
  | .error m => .error m
  | .ok message =>
    .ok {
      results := st.results ++ [{
        input := tc.input, expected := tc.expected,
        output := none, error := some message, passed := false }],
      allPassed := false }

/-- One iteration of the loop of `runTestsLocally`. -/
def localIteration {G : Type} (localRun : G → String → JsVal → Except JsVal Returned × G)
    (userCode : String) (g : G) (st : LoopState) (tc : TestCase) :
    Except String LoopState × G :=
  match localTryBody localRun userCode g st tc with
  | (.ok st2, g2) => (.ok st2, g2)
  | (.error e, g2) => (localCatchBody st tc e, g2)

/-- The loop of `runTestsLocally`. -/
def localLoop {G : Type} (localRun : G → String → JsVal → Except JsVal Returned × G)
    (userCode : String) : List TestCase → G → LoopState → Except String LoopState × G
  | [], g, st => (.ok st, g)
  | tc :: rest, g, st =>
    match localIteration localRun userCode g st tc with
    | (.error m, g2) => (.error m, g2)
    | (.ok st2, g2) => localLoop localRun userCode rest g2 st2

/-- The function `runTestsLocally`: the report, or the message of the
exception that leaves it. -/
def runTestsLocally {G : Type} (localRun : G → String → JsVal → Except JsVal Returned × G)
    (userCode : String) (testCases : List TestCase) (g : G) :
    Except String LocalReport × G :=
  match localLoop localRun userCode testCases g { results := [], allPassed := true } with
  | (.ok st, g2) => (.ok { allPassed := st.allPassed, results := st.results }, g2)
  | (.error m, g2) => (.error m, g2)

/-- What the network gives back for `POST /code/execute`: the answer of the
primary executor, or nothing. -/
inductive PrimaryOutcome where
  | answered (response : Response)
  | unreachable

/-- The function `codeService.executeCode`: `response.data` when the promise
of `api.post` resolves, which it does for a status in `200..299`; for any
other status and for a transport failure the promise rejects (`none`). -/
def executeCode : PrimaryOutcome → Option Response
  | .answered response =>
    if 200 ≤ response.status ∧ response.status < 300 then some response else none
  | .unreachable => none

/-- The value handed to `setResults`. -/
inductive Shown where
  | primary (payload : Response)
  | fallback (report : LocalReport)
  | fallbackFailed (message : String)

/-- What one call of `runTests` did: the value shown, whether
`runTestsLocally` was called, whether `onComplete` was called, and the state
of the page's global scope afterwards. -/
structure RunTestsOutcome (G : Type) where
  shown : Shown
  ranLocally : Bool
  completed : Bool
  globals : G

/-- The function `runTests`. -/
def runTests {G : Type} (localRun : G → String → JsVal → Except JsVal Returned × G)
    (outcome : PrimaryOutcome) (code : String) (testCases : List TestCase)
    (isCompleted : Bool) (g : G) : RunTestsOutcome G :=
  match executeCode outcome with
  | some response =>
    { shown := .primary response, ranLocally := false,
      completed := (response.allPassed == some true) && !isCompleted, globals := g }
  | none =>
    match runTestsLocally localRun code testCases g with
    | (.ok testResults, g2) =>
      { shown := .fallback testResults, ranLocally := true,
        completed := testResults.allPassed && !isCompleted, globals := g2 }
    | (.error m, g2) =>
      { shown := .fallbackFailed m, ranLocally := true, completed := false, globals := g2 }

/-- A source without a function or class declaration that defines
`solution` as an arrow function. -/
def arrowSource : String :=
  "const solution = (a, b) => a + b;"

/-- The local outcome of `arrowSource` on the arguments `[2, 3]`: the call
`solution(...args)` returns `5`. -/
def localReturnsFive : Unit → String → JsVal → Except JsVal Returned × Unit :=
  fun g _ _ => (.ok (.plain (.num 5)), g)

/-- The local outcome of `lruSource`: the call `LRUCache(...args)` of the
pure harness throws, a class cannot be called without `new`. -/
def localClassCall : Unit → String → JsVal → Except JsVal Returned × Unit :=
  fun g text _ =>
    if text = wrappedCode lruSource "LRUCache" then
      (.error (typeError "Class constructor LRUCache cannot be invoked without \x27new\x27"), g)
    else (.error (.error "Error" "not a run of this example"), g)

/-! ## The comparator -/

/-- The comparison both executors apply, on plain data:
`JSON.stringify(output) === JSON.stringify(testCase.expected)`. -/
def comparator (output expected : JsVal) : Bool :=
  decide (stringify output = stringify expected)

/-- The same comparison on a returned value: its boolean, or the value
`JSON.stringify(output)` throws. -/
def comparatorOn (output : Returned) (expected : JsVal) : Except JsVal Bool :=
  match jsonStringify output with
  | .error e => .error e
  | .ok text => .ok (decide (text = stringify expected))

/-- A value with one marked position: the position itself, or a position
inside an element of a sequence, or inside the value under a key of a
mapping. -/
inductive ValueContext where
  | here
  | inSequence (before : List JsVal) (inner : ValueContext) (after : List JsVal)
  | inMapping (before : List (String × JsVal)) (key : String) (inner : ValueContext)
      (after : List (String × JsVal))

/-- The value obtained by putting `v` at the marked position. -/
def ValueContext.fill : ValueContext → JsVal → JsVal
  | .here, v => v
  | .inSequence before inner after, v => .arr (before ++ [inner.fill v] ++ after)
  | .inMapping before key inner after, v => .obj (before ++ [(key, inner.fill v)] ++ after)

/-- The outcome of every run of a submission whose function returns the
object `{ b: 2, a: 1 }`. -/
def vmReturnsSwappedKeys : String → Except JsVal Returned :=
  fun _ => .ok (.plain (.obj [("b", .num 2), ("a", .num 1)]))

/-- The outcome of every run of a submission whose function returns `NaN`. -/
def vmReturnsNaN : String → Except JsVal Returned :=
  fun _ => .ok (.plain .nan)

/-- The outcome of every run of a submission whose function returns the
object `{ toJSON() { return 5; } }`, which `JSON.stringify` serialises as
the number `5`. -/
def vmReturnsToJSON : String → Except JsVal Returned :=
  fun _ => .ok (.other .Mapping (some "5"))

/-- The outcome of every run of a submission whose function returns the
array `[undefined]`. -/
def vmReturnsUndefinedElement : String → Except JsVal Returned :=
  fun _ => .ok (.plain (.arr [.undefined]))

/-- The first character of `JSON.stringify(v)`, when there is one. -/
def serialHead (v : JsVal) : Option Char :=
  (stringify v).bind (fun s => s.data.head?)

/-- The type whose serialisations begin with a given first character:
`n` for `null`, `t` and `f` for the booleans, a quote for strings, the
opening bracket for sequences, the opening brace for mappings, and anything
else (a digit or the minus sign) for numbers; no serialisation at all for
`undefined`. -/
def typeOfHead : Option Char → JsType
  | none => .Undefined
  | some c =>
    if c = 'n' then .Null
    else if c = 't' ∨ c = 'f' then .Boolean
    else if c = '"' then .Text
    else if c = '[' then .Sequence
    else if c = '\x7b' then .Mapping
    else .Number

/-- The numbers that are not finite: `NaN`, `Infinity` and `-Infinity`. -/
def isNonFinite : JsVal → Bool
  | .nan => true
  | .inf _ => true
  | _ => false

/-! ## Progress: `routes/users.js`, `models/User.js`, `App.jsx`

Times are milliseconds since the epoch; experience points are integers. -/

/-- One entry of `taskHistory`; `attempts` has the schema default 1. -/
structure TaskHistoryEntry where
  taskId : String
  completedAt : Int
  xpEarned : Int
  attempts : Int

deriving instance DecidableEq for TaskHistoryEntry

/-- The field `streak` of a user. -/
structure Streak where
  current : Int
  longest : Int
  lastActivity : Int

deriving instance DecidableEq for Streak

/-- A user document. -/
structure User where
  username : String
  xp : Int
  level : Int
  completedTasks : List String
  taskHistory : List TaskHistoryEntry
  streak : Streak

deriving instance DecidableEq for User

/-- The method `calculateLevel`: `Math.floor(this.xp / 500) + 1`. -/
def calculateLevel (user : User) : Int :=
  Int.fdiv user.xp 500 + 1

/-- The method `updateStreak`, with `now` the value of `new Date()`. -/
def updateStreak (now : Int) (user : User) : User :=
  let diffDays := Int.fdiv (now - user.streak.lastActivity) (1000 * 60 * 60 * 24)
  let streak1 : Streak :=
    if diffDays = 1 then
      let current := user.streak.current + 1
      { user.streak with
        current := current,
        longest := if current > user.streak.longest then current else user.streak.longest }
    else if diffDays > 1 then { user.streak with current := 1 }
    else user.streak
  { user with streak := { streak1 with lastActivity := now } }

/-- The validators `save` runs on the paths the handler modifies: `xp` has
`min: 0` and `level` has `min: 1`. -/
def passesValidation (user : User) : Bool :=
  decide (0 ≤ user.xp) && decide (1 ≤ user.level)

/-- The answers of `POST /:id/progress`. -/
inductive ProgressResponse where
  | ok (user : User)
  | notFound
  | failed

deriving instance DecidableEq for ProgressResponse

/-- The handler of `POST /:id/progress`: the answer and the stored document
afterwards.  `found` is the result of `User.findById`, `historyTime` and
`streakTime` the two values of `new Date()`; a `save` that fails validation
throws, leaves the stored document as it was and leads to the 500 answer. -/
def progress (historyTime streakTime : Int) (found : Option User) (taskId : String)
    (xpEarned : Int) : ProgressResponse × Option User :=
  match found with
  | none => (.notFound, none)
  | some user =>
    if taskId ∈ user.completedTasks then (.ok user, some user)
    else
      let user1 := { user with xp := user.xp + xpEarned }
      let user2 := { user1 with level := calculateLevel user1 }
      let user3 := { user2 with completedTasks := user2.completedTasks ++ [taskId] }
      let user4 := { user3 with
        taskHistory := user3.taskHistory ++
          [{ taskId := taskId, xpEarned := xpEarned, completedAt := historyTime,
             attempts := 1 }] }
      let user5 := updateStreak streakTime user4
      if passesValidation user5 then (.ok user5, some user5) else (.failed, some user)

/-- The user object the client holds; `xp` may be missing. -/
structure ClientUser where
  id : String
  username : String
  xp : Option Int
  level : Int
  completedTasks : List String

deriving instance DecidableEq for ClientUser

/-- The client state `handleTaskComplete` reads and writes: the set
`completedTasks` (in insertion order), the `user`, and the value stored
under `xandlearning_user`. -/
structure ClientState where
  completedTasks : List String
  user : ClientUser
  stored : Option ClientUser

deriving instance DecidableEq for ClientState

/-- The function `handleTaskComplete`: the state afterwards and the arguments
of the call `userService.updateUserProgress(user._id, taskId, xpEarned)`,
when it is made. -/
def handleTaskComplete (st : ClientState) (taskId : String) (xpEarned : Int) :
    ClientState × Option (String × String × Int) :=
  if taskId ∈ st.completedTasks then (st, none)
  else
    let newCompletedTasks := st.completedTasks ++ [taskId]
    let newXp := st.user.xp.getD 0 + xpEarned
    let newLevel := Int.fdiv newXp 500 + 1
    let updatedUser : ClientUser :=
      { st.user with xp := some newXp, level := newLevel, completedTasks := newCompletedTasks }
    ({ completedTasks := newCompletedTasks, user := updatedUser, stored := some updatedUser },
      if st.user.id ≠ "offline" then some (st.user.id, taskId, xpEarned) else none)

/-- A user who has completed the task `two-sum`. -/
def sampleUser : User :=
  { username := "ada", xp := 100, level := 1, completedTasks := ["two-sum"],
    taskHistory := [{ taskId := "two-sum", completedAt := 1000, xpEarned := 100,
                      attempts := 1 }],
    streak := { current := 1, longest := 1, lastActivity := 1000 } }

/-- The client state of the same user. -/
def sampleClientState : ClientState :=
  { completedTasks := ["two-sum"],
    user := { id := "u1", username := "ada", xp := some 100, level := 1,
              completedTasks := ["two-sum"] },
    stored := none }

/-- A user document as the schema creates it at time `created`: `xp` 0,
`level` 1, no completed task, and a streak of 0 with `lastActivity` the time
of creation. -/
def newUser (username : String) (created : Int) : User :=
  { username := username, xp := 0, level := 1, completedTasks := [], taskHistory := [],
    streak := { current := 0, longest := 0, lastActivity := created } }

/-! ## Lemmas on the loop -/

theorem tryBody_eq (vmRun : String → Except JsVal Returned) (code name : String)
    (st : LoopState) (tc : TestCase) :
    tryBody vmRun code name st tc =
      match attempt vmRun code name tc with
      | .error e => .error e
      | .ok output =>
        match jsonStringify output with
        | .error e => .error e
        | .ok text =>
          .ok { results := st.results ++ [{
                  input := tc.input, expected := tc.expected, output := some output,
                  error := none,
                  passed := decide (text = stringify tc.expected) }],
                allPassed :=
                  st.allPassed && decide (text = stringify tc.expected) } := by
  unfold tryBody attempt harnessText
  by_cases h : usesClassHarness code tc = true
  · simp only [h, if_true]
    cases toStr (elemAt tc.input 0) with
    | error e => rfl
    | ok capacityText =>
      simp only []
      cases vmRun (classTestCode code name capacityText (stringifyText (elemAt tc.input 1))) with
      | error e => rfl
      | ok output =>
        simp only []
        cases jsonStringify output with
        | error e => rfl
        | ok text =>
          simp only []
          by_cases hp : text = stringify tc.expected <;> simp [hp]
  · simp only [h, if_false, Bool.false_eq_true]
    cases vmRun (testCode code name (stringifyText tc.input)) with
    | error e => rfl
    | ok output =>
      simp only []
      cases jsonStringify output with
      | error e => rfl
      | ok text =>
        simp only []
        by_cases hp : text = stringify tc.expected <;> simp [hp]

theorem catchBody_eq (st : LoopState) (tc : TestCase) (e : JsVal) :
    catchBody st tc e =
      match caughtSlot tc e with
      | .error m => .error m
      | .ok r => .ok { results := st.results ++ [r], allPassed := st.allPassed && r.passed } := by
  unfold catchBody caughtSlot
  cases readMessage e with
  | error m => rfl
  | ok message => simp

theorem iteration_eq (vmRun : String → Except JsVal Returned) (code name : String)
    (st : LoopState) (tc : TestCase) :
    iteration vmRun code name st tc =
      match slotFor vmRun code name tc with
      | .error m => .error m
      | .ok r => .ok { results := st.results ++ [r], allPassed := st.allPassed && r.passed } := by
  unfold iteration slotFor slotOf
  rw [tryBody_eq]
  cases attempt vmRun code name tc with
  | error e => simp only [catchBody_eq]
  | ok output =>
    simp only []
    cases jsonStringify output with
    | error e => simp only [catchBody_eq]
    | ok text => rfl

theorem runLoop_eq (vmRun : String → Except JsVal Returned) (code name : String)
    (tcs : List TestCase) (st : LoopState) :
    runLoop vmRun code name tcs st =
      match slotsFor vmRun code name tcs with
      | .error m => .error m
      | .ok rs =>
        .ok { results := st.results ++ rs, allPassed := st.allPassed && allOfPassed rs } := by
  induction tcs generalizing st with
  | nil => simp [runLoop, slotsFor, allOfPassed]
  | cons tc rest ih =>
    simp only [runLoop, slotsFor, iteration_eq]
    cases slotFor vmRun code name tc with
    | error m => rfl
    | ok r =>
      simp only [ih]
      cases slotsFor vmRun code name rest with
      | error m => rfl
      | ok rs => simp [allOfPassed, Bool.and_assoc]

/-! ## Lemmas on the handler -/

theorem matchHere_ne_nil (kw text name : List Char) (h : matchHere kw text = some name) :
    name ≠ [] := by
  unfold matchHere at h
  split at h
  · split at h
    · cases h
    · split at h
      · simp only [] at h
        split at h
        · cases h
        · rename_i hne
          cases h
          intro hnil
          simp [hnil] at hne
      · cases h
  · cases h

theorem regexMatch_ne_nil (kw text name : List Char) (h : regexMatch kw text = some name) :
    name ≠ [] := by
  induction text with
  | nil => exact matchHere_ne_nil kw [] name (by simpa [regexMatch] using h)
  | cons c cs ih =>
    simp only [regexMatch] at h
    cases hm : matchHere kw (c :: cs) with
    | some n =>
      rw [hm] at h
      injection h with h
      subst h
      exact matchHere_ne_nil kw (c :: cs) n hm
    | none =>
      rw [hm] at h
      exact ih h

theorem mk_ne_empty (name : List Char) (h : name ≠ []) : String.mk name ≠ "" := by
  intro e
  apply h
  have := congrArg String.data e
  simpa using this

theorem map_mk_ne_empty (r : Option (List Char)) (name : String)
    (hr : ∀ n, r = some n → n ≠ []) (h : r.map String.mk = some name) : name ≠ "" := by
  cases r with
  | none => cases h
  | some n =>
    injection h with h
    subst h
    exact mk_ne_empty n (hr n rfl)

theorem functionMatch_ne_empty (code name : String) (h : functionMatch code = some name) :
    name ≠ "" :=
  map_mk_ne_empty _ name (fun n hn => regexMatch_ne_nil _ _ n hn) h

theorem classMatch_ne_empty (code name : String) (h : classMatch code = some name) :
    name ≠ "" :=
  map_mk_ne_empty _ name (fun n hn => regexMatch_ne_nil _ _ n hn) h

theorem funcName_ne_empty (code name : String) (h : funcName code = some name) :
    name ≠ "" := by
  unfold funcName at h
  cases hf : functionMatch code with
  | some n =>
    rw [hf] at h
    injection h with h
    subst h
    exact functionMatch_ne_empty code n hf
  | none =>
    rw [hf] at h
    cases hc : classMatch code with
    | some n =>
      rw [hc] at h
      injection h with h
      subst h
      exact classMatch_ne_empty code n hc
    | none =>
      rw [hc] at h
      cases h

theorem funcName_code_ne_empty (code name : String) (h : funcName code = some name) :
    code ≠ "" := by
  intro e
  subst e
  have h0 : funcName "" = none := by decide
  rw [h0] at h
  cases h

/-- The response to a request that carries a source with a resolved entry
point and a list of test cases. -/
theorem execute_resolved (vmRun : String → Except JsVal Returned) (code name : String)
    (testCases : List TestCase) (taskId : JsVal) (h : funcName code = some name) :
    execute vmRun ⟨some code, some testCases, taskId⟩ =
      match slotsFor vmRun code name testCases with
      | .error m => internalFailure m
      | .ok rs => report ⟨rs, allOfPassed rs⟩ taskId := by
  unfold execute
  simp only [funcName_code_ne_empty code name h, funcName_ne_empty code name h, h, if_false,
    runLoop_eq]
  cases slotsFor vmRun code name testCases with
  | error m => rfl
  | ok rs => simp

theorem slotsFor_length (vmRun : String → Except JsVal Returned) (code name : String)
    (tcs : List TestCase) (rs : List ExecutionResult)
    (h : slotsFor vmRun code name tcs = .ok rs) :
    List.Forall₂ (fun tc r => slotFor vmRun code name tc = .ok r) tcs rs := by
  induction tcs generalizing rs with
  | nil =>
    simp only [slotsFor] at h
    cases h
    exact List.Forall₂.nil
  | cons tc rest ih =>
    simp only [slotsFor] at h
    cases hs : slotFor vmRun code name tc with
    | error m => simp [hs] at h
    | ok r =>
      simp only [hs] at h
      cases hr : slotsFor vmRun code name rest with
      | error m => simp [hr] at h
      | ok rs2 =>
        simp only [hr] at h
        cases h
        exact List.Forall₂.cons hs (ih rs2 hr)

theorem caughtSlot_input_expected (tc : TestCase) (e : JsVal) (r : ExecutionResult)
    (h : caughtSlot tc e = .ok r) :
    r.input = tc.input ∧ r.expected = tc.expected ∧ r.output = none ∧ r.passed = false ∧
      readMessage e = .ok (r.error.getD .undefined) ∧ r.error.isSome = true := by
  unfold caughtSlot at h
  cases hm : readMessage e with
  | error m => simp [hm] at h
  | ok message =>
    simp only [hm] at h
    cases h
    exact ⟨rfl, rfl, rfl, rfl, rfl, rfl⟩

theorem slotFor_input_expected (vmRun : String → Except JsVal Returned) (code name : String)
    (tc : TestCase) (r : ExecutionResult) (h : slotFor vmRun code name tc = .ok r) :
    r.input = tc.input ∧ r.expected = tc.expected := by
  unfold slotFor slotOf at h
  cases ha : attempt vmRun code name tc with
  | ok output =>
    simp only [ha] at h
    cases hj : jsonStringify output with
    | error e =>
      simp only [hj] at h
      exact ⟨(caughtSlot_input_expected tc e r h).1, (caughtSlot_input_expected tc e r h).2.1⟩
    | ok text =>
      simp only [hj] at h
      cases h
      exact ⟨rfl, rfl⟩
  | error e =>
    simp only [ha] at h
    exact ⟨(caughtSlot_input_expected tc e r h).1, (caughtSlot_input_expected tc e r h).2.1⟩

/-- Whenever the handler answers with the report, its `allPassed` is the AND
of the `passed` flags of its results, and the results are the slots of the
test cases in order. -/
theorem report_of_status_200 (vmRun : String → Except JsVal Returned) (body : RequestBody)
    (h : (execute vmRun body).status = 200) :
    ∃ code name testCases rs,
      body.code = some code ∧ body.testCases = some testCases ∧ funcName code = some name ∧
      slotsFor vmRun code name testCases = .ok rs ∧
      execute vmRun body = report ⟨rs, allOfPassed rs⟩ body.taskId := by
  obtain ⟨c, t, taskId⟩ := body
  cases c with
  | none => simp [execute, validationFailure] at h
  | some code =>
    cases t with
    | none => simp [execute, validationFailure] at h
    | some testCases =>
      cases hn : funcName code with
      | none =>
        unfold execute at h
        simp only [hn] at h
        split at h <;> simp [validationFailure, entryNotFound] at h
      | some name =>
        have he := execute_resolved vmRun code name testCases taskId hn
        cases hs : slotsFor vmRun code name testCases with
        | error m =>
          rw [he, hs] at h
          simp [internalFailure] at h
        | ok rs =>
          rw [hs] at he
          exact ⟨code, name, testCases, rs, rfl, rfl, hn, hs, he⟩

/-! ## C1: a submission without a declaration -/

/-- C1 (counterexample): the empty source text contains neither a function
declaration nor a class declaration, yet the handler answers with the
validation payload of line 11, which carries neither `allPassed: false` nor
`results: []`. -/
theorem C1_empty_source_counterexample :
    functionMatch "" = none ∧ classMatch "" = none ∧
    ¬ ((execute vmReturnsFive ⟨some "", some [⟨.arr [.num 2, .num 3], .num 5⟩],
          .str "t1"⟩).allPassed = some false ∧
       (execute vmReturnsFive ⟨some "", some [⟨.arr [.num 2, .num 3], .num 5⟩],
          .str "t1"⟩).results = some []) := by
  decide

/-- C1 (amended): for every request that passes validation (a non-empty
source text and a list of test cases) and whose source contains neither a
function declaration nor a class declaration, the handler answers 400 with
`allPassed: false` and `results: []`, whatever the test cases and whatever
the interpreter would do: no test case is run. -/
theorem C1_unresolved_entry_payload (vmRun : String → Except JsVal Returned) (code : String)
    (testCases : List TestCase) (taskId : JsVal)
    (hcode : code ≠ "") (hf : functionMatch code = none) (hc : classMatch code = none) :
    execute vmRun ⟨some code, some testCases, taskId⟩ =
      { status := 400,
        error := some (.str "Could not find function or class name in code"),
        allPassed := some false, results := some [], taskId := none } := by
  unfold execute
  simp [hcode, funcName, hf, hc, entryNotFound]

theorem C1_unresolved_entry_payload_witness :
    execute vmReturnsFive
        ⟨some "const add = (a, b) => a + b;", some [⟨.arr [.num 2, .num 3], .num 5⟩], .str "t1"⟩ =
      { status := 400,
        error := some (.str "Could not find function or class name in code"),
        allPassed := some false, results := some [], taskId := none } :=
  C1_unresolved_entry_payload vmReturnsFive "const add = (a, b) => a + b;"
    [⟨.arr [.num 2, .num 3], .num 5⟩] (.str "t1") (by decide) (by decide) (by decide)

/-! ## C2, C3, C4, C10: an exception that leaves the per-test `catch` -/

/-- In every report (status 200), `allPassed` is the AND of the `passed`
flags of `results`. -/
theorem report_allPassed_eq_and (vmRun : String → Except JsVal Returned) (body : RequestBody)
    (h : (execute vmRun body).status = 200) :
    ∃ rs, (execute vmRun body).results = some rs ∧
      (execute vmRun body).allPassed = some (allOfPassed rs) := by
  obtain ⟨code, name, testCases, rs, _, _, _, _, he⟩ := report_of_status_200 vmRun body h
  exact ⟨rs, by rw [he]; rfl, by rw [he]; rfl⟩

/-- In every report (status 200), `results` has one entry per test case, in
order, with the `input` and `expected` of that test case. -/
theorem report_results_aligned (vmRun : String → Except JsVal Returned) (code : String)
    (testCases : List TestCase) (taskId : JsVal)
    (h : (execute vmRun ⟨some code, some testCases, taskId⟩).status = 200) :
    ∃ rs, (execute vmRun ⟨some code, some testCases, taskId⟩).results = some rs ∧
      List.Forall₂ (fun tc r => r.input = tc.input ∧ r.expected = tc.expected) testCases rs := by
  obtain ⟨code2, name, tcs2, rs, hc, ht, _, hs, he⟩ := report_of_status_200 vmRun _ h
  simp only [Option.some.injEq] at hc ht
  subst hc ht
  refine ⟨rs, by rw [he]; rfl, ?_⟩
  exact (slotsFor_length vmRun code name testCases rs hs).imp
    (fun {tc r} hr => slotFor_input_expected vmRun code name tc r hr)

/-- In every report (status 200), the result of each test case is the one
the handler reports for that test case alone. -/
theorem report_results_pointwise (vmRun : String → Except JsVal Returned) (code : String)
    (testCases : List TestCase) (taskId : JsVal)
    (h : (execute vmRun ⟨some code, some testCases, taskId⟩).status = 200) :
    ∃ rs, (execute vmRun ⟨some code, some testCases, taskId⟩).results = some rs ∧
      List.Forall₂
        (fun tc r => (execute vmRun ⟨some code, some [tc], taskId⟩).results = some [r])
        testCases rs := by
  obtain ⟨code2, name, tcs2, rs, hc, ht, hn, hs, he⟩ := report_of_status_200 vmRun _ h
  simp only [Option.some.injEq] at hc ht
  subst hc ht
  refine ⟨rs, by rw [he]; rfl, ?_⟩
  refine (slotsFor_length vmRun code name testCases rs hs).imp ?_
  intro tc r hr
  rw [execute_resolved vmRun code name [tc] taskId hn]
  simp [slotsFor, hr, report]

/-- Reading `error.message` throws exactly for `null` and `undefined`. -/
theorem readMessage_error_iff (e : JsVal) (m : String) :
    readMessage e = .error m ↔
      (e = .null ∧ m = "Cannot read properties of null (reading \x27message\x27)") ∨
      (e = .undefined ∧
        m = "Cannot read properties of undefined (reading \x27message\x27)") := by
  cases e <;> simp [readMessage, eq_comm]

theorem caughtSlot_error_iff (tc : TestCase) (e : JsVal) (m : String) :
    caughtSlot tc e = .error m ↔ readMessage e = .error m := by
  unfold caughtSlot
  cases hm : readMessage e with
  | error m2 => simp
  | ok message => simp

/-- An exception leaves the loop at a test case exactly when the read of
`message` throws on the value its `catch` clause receives. -/
theorem slotOf_error_iff (tc : TestCase) (outcome : Except JsVal Returned) (m : String) :
    slotOf tc outcome = .error m ↔
      ∃ e, caughtIn outcome = some e ∧ readMessage e = .error m := by
  unfold slotOf caughtIn
  cases outcome with
  | ok output =>
    simp only []
    cases hj : jsonStringify output with
    | error e => simp [caughtSlot_error_iff]
    | ok text => simp
  | error e => simp [caughtSlot_error_iff]

theorem slotFor_error_iff (vmRun : String → Except JsVal Returned) (code name : String)
    (tc : TestCase) (m : String) :
    slotFor vmRun code name tc = .error m ↔
      ∃ e, caught vmRun code name tc = some e ∧ readMessage e = .error m :=
  slotOf_error_iff tc (attempt vmRun code name tc) m

/-- The loop completes whenever no `catch` clause receives `null` or
`undefined`. -/
theorem slotsFor_ok_of_no_nullish_throw (vmRun : String → Except JsVal Returned)
    (code name : String) (tcs : List TestCase)
    (hok : ∀ tc, tc ∈ tcs → caught vmRun code name tc ≠ some .null ∧
      caught vmRun code name tc ≠ some .undefined) :
    ∃ rs, slotsFor vmRun code name tcs = .ok rs := by
  induction tcs with
  | nil => exact ⟨[], rfl⟩
  | cons tc rest ih =>
    obtain ⟨rs, hrs⟩ := ih (fun t ht => hok t (List.mem_cons_of_mem _ ht))
    have htc := hok tc (List.mem_cons_self _ _)
    cases hs : slotFor vmRun code name tc with
    | error m =>
      obtain ⟨e, he, hm⟩ := (slotFor_error_iff vmRun code name tc m).mp hs
      rcases (readMessage_error_iff e m).mp hm with ⟨rfl, _⟩ | ⟨rfl, _⟩
      · exact absurd he htc.1
      · exact absurd he htc.2
    | ok r => exact ⟨r :: rs, by simp [slotsFor, hs, hrs]⟩

/-- With a resolved entry point and no `catch` clause receiving `null` or
`undefined`, the handler answers with the report. -/
theorem report_unless_nullish_throw (vmRun : String → Except JsVal Returned)
    (code name : String) (testCases : List TestCase) (taskId : JsVal)
    (h : funcName code = some name)
    (hok : ∀ tc, tc ∈ testCases → caught vmRun code name tc ≠ some .null ∧
      caught vmRun code name tc ≠ some .undefined) :
    (execute vmRun ⟨some code, some testCases, taskId⟩).status = 200 := by
  obtain ⟨rs, hrs⟩ := slotsFor_ok_of_no_nullish_throw vmRun code name testCases hok
  rw [execute_resolved vmRun code name testCases taskId h, hrs]
  rfl

/-- A thrown `Error` instance is absorbed into the slot of its test case:
`passed` is false and `error` is the message. -/
theorem thrown_error_absorbed (vmRun : String → Except JsVal Returned) (code name : String)
    (st : LoopState) (tc : TestCase) (errName message : String)
    (h : attempt vmRun code name tc = .error (.error errName message)) :
    iteration vmRun code name st tc =
      .ok { results := st.results ++ [{
              input := tc.input, expected := tc.expected, output := none,
              error := some (.str message), passed := false }],
            allPassed := false } := by
  rw [iteration_eq]
  simp [slotFor, slotOf, caughtSlot, h, readMessage]

/-- C2 (the code at the failing input): the entry point of
`function f() { throw null; }` resolves, the run of its single test case
throws `null`, and the handler answers with `allPassed: false` and
`results: []`, although the AND of the flags of an empty list is true. -/
theorem C2_null_throw_allPassed :
    funcName "function f() \x7b throw null; \x7d" = some "f" ∧
    (execute vmThrowsNull
      ⟨some "function f() \x7b throw null; \x7d", some [⟨.arr [], .num 1⟩], .str "t1"⟩).allPassed
      = some false ∧
    (execute vmThrowsNull
      ⟨some "function f() \x7b throw null; \x7d", some [⟨.arr [], .num 1⟩], .str "t1"⟩).results
      = some [] ∧
    allOfPassed [] = true := by
  decide

/-- C3 (the code at the failing input): with two test cases whose runs throw
`null`, the entry point resolves and the handler answers with an empty
`results`, not with one result per test case. -/
theorem C3_null_throw_results_length :
    funcName "function g(x) \x7b throw null; \x7d" = some "g" ∧
    ([⟨.arr [.num 1], .num 1⟩, ⟨.arr [.num 2], .num 2⟩] : List TestCase).length = 2 ∧
    ((execute vmThrowsNull
      ⟨some "function g(x) \x7b throw null; \x7d",
        some [⟨.arr [.num 1], .num 1⟩, ⟨.arr [.num 2], .num 2⟩], .str "t1"⟩).results.map
      List.length) = some 0 := by
  decide

/-- C4 (the code at the failing inputs): a run that throws `null` is not
absorbed into its slot, the handler answers 500 with the message of the
`TypeError` raised by reading `error.message`; a run that throws a string
gets a slot whose `error` is `undefined`, that is, not populated. -/
theorem C4_thrown_null_and_string :
    execute vmThrowsNull
      ⟨some "function h() \x7b throw null; \x7d",
        some [⟨.arr [], .num 1⟩, ⟨.arr [], .num 2⟩], .str "t1"⟩ =
      { status := 500,
        error := some (.str "Cannot read properties of null (reading \x27message\x27)"),
        allPassed := some false, results := some [], taskId := none } ∧
    execute vmThrowsString
      ⟨some "function h() \x7b throw \"boom\"; \x7d", some [⟨.arr [], .num 1⟩], .str "t1"⟩ =
      { status := 200, error := none, allPassed := some false,
        results := some [{ input := .arr [], expected := .num 1, output := none,
                           error := some .undefined, passed := false }],
        taskId := some (.str "t1") } ∧
    populated (some JsVal.undefined) = false := by
  decide

/-- C10 (the code at the failing input): run alone, the test case `f(1)`
gets a passing result; in a batch with the test case `f(0)`, whose run
throws `null`, no result is reported for it. -/
theorem C10_batch_differs_from_single :
    funcName guardedSource = some "f" ∧
    (execute vmGuarded
      ⟨some guardedSource, some [⟨.arr [.num 1], .num 1⟩], .str "t1"⟩).results =
      some [{ input := .arr [.num 1], expected := .num 1, output := some (.plain (.num 1)),
              error := none, passed := true }] ∧
    (execute vmGuarded
      ⟨some guardedSource, some [⟨.arr [.num 1], .num 1⟩, ⟨.arr [.num 0], .num 0⟩],
        .str "t1"⟩).results = some [] := by
  decide

/-! ## C5, C6: the slot of one test case -/

theorem forall₂_mem_right {α β : Type} (R : α → β → Prop) (l1 : List α) (l2 : List β)
    (h : List.Forall₂ R l1 l2) (b : β) (hb : b ∈ l2) : ∃ a, a ∈ l1 ∧ R a b := by
  induction h with
  | nil => cases hb
  | @cons a0 b0 t1 t2 hab _ ih =>
    cases hb with
    | head => exact ⟨a0, List.mem_cons_self _ _, hab⟩
    | tail _ hb2 =>
      obtain ⟨a, ha, hR⟩ := ih hb2
      exact ⟨a, List.mem_cons_of_mem _ ha, hR⟩

/-- Every entry of the `results` of a response is the slot of one of the
test cases of the request. -/
theorem results_mem_slot (vmRun : String → Except JsVal Returned) (body : RequestBody)
    (rs : List ExecutionResult) (r : ExecutionResult)
    (hres : (execute vmRun body).results = some rs) (hr : r ∈ rs) :
    ∃ code testCases name tc, body.code = some code ∧ body.testCases = some testCases ∧
      funcName code = some name ∧ tc ∈ testCases ∧ slotFor vmRun code name tc = .ok r := by
  obtain ⟨c, t, taskId⟩ := body
  cases c with
  | none => simp [execute, validationFailure] at hres
  | some code =>
    cases t with
    | none => simp [execute, validationFailure] at hres
    | some testCases =>
      cases hn : funcName code with
      | none =>
        unfold execute at hres
        simp only [hn] at hres
        split at hres
        · simp [validationFailure] at hres
        · simp only [entryNotFound, Option.some.injEq] at hres
          subst hres
          cases hr
      | some name =>
        rw [execute_resolved vmRun code name testCases taskId hn] at hres
        cases hs : slotsFor vmRun code name testCases with
        | error m =>
          simp only [hs, internalFailure, Option.some.injEq] at hres
          subst hres
          cases hr
        | ok rs2 =>
          simp only [hs, report, Option.some.injEq] at hres
          subst hres
          obtain ⟨tc, htc, hslot⟩ :=
            forall₂_mem_right _ _ _ (slotsFor_length vmRun code name testCases rs2 hs) r hr
          exact ⟨code, testCases, name, tc, rfl, rfl, hn, htc, hslot⟩

/-- C5 (counterexample): the function of `function f() { return 1n; }`
returns a value, on which `JSON.stringify` throws; the result of the test
case records no output, it holds the message of the `TypeError` as `error`. -/
theorem C5_bigint_output_counterexample :
    attempt vmReturnsBigInt "function f() \x7b return 1n; \x7d" "f" ⟨.arr [], .num 1⟩ =
      .ok (.unserialisable .BigInt (typeError "Do not know how to serialize a BigInt")) ∧
    execute vmReturnsBigInt
      ⟨some "function f() \x7b return 1n; \x7d", some [⟨.arr [], .num 1⟩], .str "t1"⟩ =
      { status := 200, error := none, allPassed := some false,
        results := some [{ input := .arr [], expected := .num 1, output := none,
                           error := some (.str "Do not know how to serialize a BigInt"),
                           passed := false }],
        taskId := some (.str "t1") } := by
  refine ⟨by rfl, by decide⟩

/-- C5 (amended): for every test case whose execution returns a value
`output`, in the class branch and in the function branch: when
`JSON.stringify(output)` returns `text`, the iteration pushes one result
whose `passed` is true if and only if `text` is identical to
`JSON.stringify(expected)`, and which records the produced output and no
error (so also when the two differ and `passed` is false); when
`JSON.stringify(output)` throws `e`, the iteration is that of the `catch`
clause on `e`: the result it pushes has `passed` false, the `message` of `e`
as `error` and no output. -/
theorem C5_passed_iff_same_serialisation (vmRun : String → Except JsVal Returned)
    (code name : String) (st : LoopState) (tc : TestCase) (output : Returned)
    (hret : attempt vmRun code name tc = .ok output) :
    (∀ text, jsonStringify output = .ok text →
      ∃ r, iteration vmRun code name st tc =
          .ok { results := st.results ++ [r], allPassed := st.allPassed && r.passed } ∧
        r.input = tc.input ∧ r.expected = tc.expected ∧
        r.output = some output ∧ r.error = none ∧
        (r.passed = true ↔ text = stringify tc.expected) ∧
        (text ≠ stringify tc.expected → r.passed = false ∧ r.output = some output)) ∧
    (∀ e, jsonStringify output = .error e →
      iteration vmRun code name st tc = catchBody st tc e ∧
      ∀ message, readMessage e = .ok message →
        iteration vmRun code name st tc =
          .ok { results := st.results ++ [{
                  input := tc.input, expected := tc.expected, output := none,
                  error := some message, passed := false }],
                allPassed := false }) := by
  refine ⟨?_, ?_⟩
  · intro text htext
    refine ⟨{ input := tc.input, expected := tc.expected, output := some output, error := none,
              passed := decide (text = stringify tc.expected) }, ?_, rfl, rfl, rfl, rfl, ?_, ?_⟩
    · rw [iteration_eq]
      simp [slotFor, slotOf, hret, htext]
    · simp
    · intro hne
      simp [hne]
  · intro e he
    have hiter : iteration vmRun code name st tc = catchBody st tc e := by
      unfold iteration
      rw [tryBody_eq, hret]
      simp only [he]
    refine ⟨hiter, ?_⟩
    intro message hm
    rw [hiter]
    simp [catchBody, hm]

theorem C5_passed_iff_same_serialisation_witness :
    (∀ text, jsonStringify (.plain (.num 5)) = .ok text →
      ∃ r, iteration vmReturnsFive "function add(a, b) \x7b return a + b; \x7d" "add"
            { results := [], allPassed := true } ⟨.arr [.num 2, .num 3], .num 5⟩ =
          .ok { results := [] ++ [r], allPassed := true && r.passed } ∧
        r.input = .arr [.num 2, .num 3] ∧ r.expected = .num 5 ∧
        r.output = some (.plain (.num 5)) ∧ r.error = none ∧
        (r.passed = true ↔ text = stringify (.num 5)) ∧
        (text ≠ stringify (.num 5) → r.passed = false ∧ r.output = some (.plain (.num 5)))) ∧
    (∀ e, jsonStringify (.plain (.num 5)) = .error e →
      iteration vmReturnsFive "function add(a, b) \x7b return a + b; \x7d" "add"
          { results := [], allPassed := true } ⟨.arr [.num 2, .num 3], .num 5⟩ =
        catchBody { results := [], allPassed := true } ⟨.arr [.num 2, .num 3], .num 5⟩ e ∧
      ∀ message, readMessage e = .ok message →
        iteration vmReturnsFive "function add(a, b) \x7b return a + b; \x7d" "add"
            { results := [], allPassed := true } ⟨.arr [.num 2, .num 3], .num 5⟩ =
          .ok { results := [] ++ [{
                  input := .arr [.num 2, .num 3], expected := .num 5, output := none,
                  error := some message, passed := false }],
                allPassed := false }) :=
  C5_passed_iff_same_serialisation vmReturnsFive "function add(a, b) \x7b return a + b; \x7d"
    "add" { results := [], allPassed := true } ⟨.arr [.num 2, .num 3], .num 5⟩
    (.plain (.num 5)) rfl

/-- Only `undefined` has no serialisation. -/
theorem stringify_eq_none_iff (v : JsVal) : stringify v = none ↔ v = .undefined := by
  cases v <;> simp [stringify]

/-- An output is populated in the response exactly when its serialisation is
a string. -/
theorem outputPopulated_iff (out : Returned) (text : Option String)
    (h : jsonStringify out = .ok text) :
    outputPopulated (some out) = true ↔ text ≠ none := by
  simp only [outputPopulated, h]
  cases text <;> simp

/-- C6 (counterexample): the function of `function f() { }` returns
`undefined`; the report holds one result, built from a returning execution,
in which neither `output` nor `error` is populated.  Likewise for a function
that returns a function. -/
theorem C6_undefined_output_counterexample :
    (execute vmReturnsUndefined
      ⟨some "function f() \x7b \x7d", some [⟨.arr [], .num 1⟩], .str "t1"⟩).results =
      some [{ input := .arr [], expected := .num 1, output := some (.plain .undefined),
              error := none, passed := false }] ∧
    outputPopulated (some (.plain .undefined)) = false ∧ populated none = false ∧
    (execute vmReturnsFunction
      ⟨some "function f() \x7b return f; \x7d", some [⟨.arr [], .num 1⟩], .str "t1"⟩).results =
      some [{ input := .arr [], expected := .num 1,
              output := some (.other .Function none),
              error := none, passed := false }] ∧
    outputPopulated (some (.other .Function none)) = false := by
  decide

/-- C6 (amended): in every result of every response of the handler, never
both `output` and `error` are populated.  A result is produced in one of two
ways.  When the execution returns a value on which `JSON.stringify` does not
throw, the result has no `error` key and holds the returned value as
`output`, which is populated exactly when that serialisation is a string;
for plain data, exactly when the value is not `undefined` (nor is it for a
function or a symbol).  When the execution throws, or `JSON.stringify`
throws on the returned value (a `BigInt`, a cycle), the result has no
`output` key and holds the `message` of the caught value as `error`, which
is populated when that is a string, as it is for an `Error` instance. -/
theorem C6_output_error_keys (vmRun : String → Except JsVal Returned) (body : RequestBody)
    (rs : List ExecutionResult) (r : ExecutionResult)
    (hres : (execute vmRun body).results = some rs) (hr : r ∈ rs) :
    ¬ (outputPopulated r.output = true ∧ populated r.error = true) ∧
    ∃ code testCases name tc, body.code = some code ∧ body.testCases = some testCases ∧
      funcName code = some name ∧ tc ∈ testCases ∧
      ((∃ out text, attempt vmRun code name tc = .ok out ∧ jsonStringify out = .ok text ∧
          r.output = some out ∧ r.error = none ∧
          (outputPopulated r.output = true ↔ text ≠ none) ∧
          (∀ v, out = .plain v → (outputPopulated r.output = true ↔ v ≠ .undefined))) ∨
       (∃ e message, caught vmRun code name tc = some e ∧ readMessage e = .ok message ∧
          r.output = none ∧ r.error = some message ∧
          (∀ text, message = .str text → populated r.error = true) ∧
          (∀ errName text, e = .error errName text → message = .str text))) := by
  obtain ⟨code, testCases, name, tc, hc, ht, hn, htc, hslot⟩ :=
    results_mem_slot vmRun body rs r hres hr
  have caughtCase : ∀ e, caught vmRun code name tc = some e → caughtSlot tc e = .ok r →
      ¬ (outputPopulated r.output = true ∧ populated r.error = true) ∧
      ∃ code testCases name tc, body.code = some code ∧ body.testCases = some testCases ∧
        funcName code = some name ∧ tc ∈ testCases ∧
        ((∃ out text, attempt vmRun code name tc = .ok out ∧ jsonStringify out = .ok text ∧
            r.output = some out ∧ r.error = none ∧
            (outputPopulated r.output = true ↔ text ≠ none) ∧
            (∀ v, out = .plain v → (outputPopulated r.output = true ↔ v ≠ .undefined))) ∨
         (∃ e message, caught vmRun code name tc = some e ∧ readMessage e = .ok message ∧
            r.output = none ∧ r.error = some message ∧
            (∀ text, message = .str text → populated r.error = true) ∧
            (∀ errName text, e = .error errName text → message = .str text))) := by
    intro e hcaught hcs
    unfold caughtSlot at hcs
    cases hm : readMessage e with
    | error m => simp [hm] at hcs
    | ok message =>
      simp only [hm, Except.ok.injEq] at hcs
      subst hcs
      refine ⟨by simp [outputPopulated], code, testCases, name, tc, hc, ht, hn, htc,
        Or.inr ⟨e, message, hcaught, hm, rfl, rfl, ?_, ?_⟩⟩
      · intro text hmsg
        subst hmsg
        rfl
      · intro errName text he
        subst he
        simp only [readMessage, Except.ok.injEq] at hm
        exact hm.symm
  unfold slotFor slotOf at hslot
  cases ha : attempt vmRun code name tc with
  | ok out =>
    simp only [ha] at hslot
    cases hj : jsonStringify out with
    | error e =>
      simp only [hj] at hslot
      exact caughtCase e (by simp [caught, caughtIn, ha, hj]) hslot
    | ok text =>
      simp only [hj, Except.ok.injEq] at hslot
      subst hslot
      refine ⟨by simp [populated], code, testCases, name, tc, hc, ht, hn, htc,
        Or.inl ⟨out, text, ha, hj, rfl, rfl, outputPopulated_iff out text hj, ?_⟩⟩
      intro v hv
      subst hv
      simp only [jsonStringify, Except.ok.injEq] at hj
      rw [outputPopulated_iff (.plain v) text (by simp [jsonStringify, hj]), ← hj, Ne,
        stringify_eq_none_iff]
  | error e =>
    simp only [ha] at hslot
    exact caughtCase e (by simp [caught, caughtIn, ha]) hslot

theorem C6_output_error_keys_witness :
    ¬ (outputPopulated (some (.plain (.num 5))) = true ∧ populated none = true) ∧
    ∃ code testCases name tc,
      (some "function add(a, b) \x7b return a + b; \x7d" : Option String) = some code ∧
      (some [(⟨.arr [.num 2, .num 3], .num 5⟩ : TestCase)]) = some testCases ∧
      funcName code = some name ∧ tc ∈ testCases ∧
      ((∃ out text, attempt vmReturnsFive code name tc = .ok out ∧
          jsonStringify out = .ok text ∧
          some (Returned.plain (.num 5)) = some out ∧ (none : Option JsVal) = none ∧
          (outputPopulated (some (.plain (.num 5))) = true ↔ text ≠ none) ∧
          (∀ v, out = .plain v →
            (outputPopulated (some (.plain (.num 5))) = true ↔ v ≠ .undefined))) ∨
       (∃ e message, caught vmReturnsFive code name tc = some e ∧
          readMessage e = .ok message ∧
          some (Returned.plain (.num 5)) = none ∧ (none : Option JsVal) = some message ∧
          (∀ text, message = .str text → populated none = true) ∧
          (∀ errName text, e = .error errName text → message = .str text))) :=
  C6_output_error_keys vmReturnsFive
    ⟨some "function add(a, b) \x7b return a + b; \x7d",
      some [⟨.arr [.num 2, .num 3], .num 5⟩], .str "t1"⟩
    [{ input := .arr [.num 2, .num 3], expected := .num 5, output := some (.plain (.num 5)),
       error := none, passed := true }]
    { input := .arr [.num 2, .num 3], expected := .num 5, output := some (.plain (.num 5)),
      error := none, passed := true }
    (by decide) (by simp)

/-! ## C7, C8: the resolver and the choice of harness -/

theorem isWord_not_isSpace (c : Char) (h : isWord c = true) : isSpace c = false := by
  unfold isWord at h
  unfold isSpace
  simp only [Bool.or_eq_true, Bool.and_eq_true, decide_eq_true_eq] at h
  simp only [Bool.or_eq_false_iff, Bool.and_eq_false_imp, decide_eq_false_iff_not,
    decide_eq_true_eq]
  omega

theorem startsWith_iff (kw text : List Char) :
    startsWith kw text = true ↔ ∃ t, text = kw ++ t := by
  induction kw generalizing text with
  | nil => simp [startsWith]
  | cons k ks ih =>
    cases text with
    | nil => simp [startsWith]
    | cons c cs =>
      simp only [startsWith, Bool.and_eq_true, beq_iff_eq, ih, List.cons_append,
        List.cons.injEq]
      constructor
      · rintro ⟨rfl, t, rfl⟩
        exact ⟨t, rfl, rfl⟩
      · rintro ⟨t, rfl, rfl⟩
        exact ⟨rfl, t, rfl⟩

theorem dropWhile_append_of_all (p : Char → Bool) (ws l : List Char)
    (h : ∀ c ∈ ws, p c = true) : (ws ++ l).dropWhile p = l.dropWhile p := by
  induction ws with
  | nil => rfl
  | cons w ws ih =>
    have hw : p w = true := h w (List.mem_cons_self _ _)
    simp only [List.cons_append, List.dropWhile_cons, hw, if_true]
    exact ih (fun c hc => h c (List.mem_cons_of_mem _ hc))

theorem dropWhile_of_head (p : Char → Bool) (l : List Char)
    (h : ∀ c, l.head? = some c → p c = false) : l.dropWhile p = l := by
  cases l with
  | nil => rfl
  | cons a t => simp [List.dropWhile_cons, h a rfl]

theorem takeWhile_append_of_all (p : Char → Bool) (name rest : List Char)
    (h : ∀ c ∈ name, p c = true) (hr : ∀ c, rest.head? = some c → p c = false) :
    (name ++ rest).takeWhile p = name := by
  induction name with
  | nil =>
    cases rest with
    | nil => rfl
    | cons a t => simp [List.takeWhile_cons, hr a rfl]
  | cons w ws ih =>
    have hw : p w = true := h w (List.mem_cons_self _ _)
    simp only [List.cons_append, List.takeWhile_cons, hw, if_true, List.cons.injEq, true_and]
    exact ih (fun c hc => h c (List.mem_cons_of_mem _ hc))

/-- The anchored matcher succeeds with `name` exactly when the text reads:
keyword, non-empty white space, `name` as a maximal non-empty run of word
characters. -/
theorem matchHere_eq_some_iff (kw text name : List Char) :
    matchHere kw text = some name ↔
      ∃ ws rest, text = kw ++ (ws ++ (name ++ rest)) ∧
        ws ≠ [] ∧ (∀ c ∈ ws, isSpace c = true) ∧
        name ≠ [] ∧ (∀ c ∈ name, isWord c = true) ∧
        (∀ c, rest.head? = some c → isWord c = false) := by
  constructor
  · intro h
    have hne := matchHere_ne_nil kw text name h
    unfold matchHere at h
    by_cases hsw : startsWith kw text = true
    · rw [if_pos hsw] at h
      obtain ⟨t, rfl⟩ := (startsWith_iff kw text).mp hsw
      rw [List.drop_left] at h
      cases t with
      | nil => cases h
      | cons c rest0 =>
        simp only [] at h
        by_cases hc : isSpace c = true
        · rw [if_pos hc] at h
          by_cases hemp :
              (((c :: rest0).dropWhile isSpace).takeWhile isWord).isEmpty = true
          · rw [if_pos hemp] at h
            cases h
          · rw [if_neg hemp] at h
            injection h with h
            refine ⟨(c :: rest0).takeWhile isSpace,
              ((c :: rest0).dropWhile isSpace).dropWhile isWord, ?_, ?_, ?_, hne, ?_, ?_⟩
            · rw [← h, List.takeWhile_append_dropWhile, List.takeWhile_append_dropWhile]
            · simp [List.takeWhile_cons, hc]
            · intro x hx
              exact List.mem_takeWhile_imp hx
            · intro x hx
              rw [← h] at hx
              exact List.mem_takeWhile_imp hx
            · intro x hx
              have := List.head?_dropWhile_not isWord ((c :: rest0).dropWhile isSpace)
              rw [hx] at this
              exact this
        · rw [if_neg hc] at h
          cases h
    · rw [if_neg hsw] at h
      cases h
  · rintro ⟨ws, rest, rfl, hws, hsp, hname, hw, hrest⟩
    have hsw : startsWith kw (kw ++ (ws ++ (name ++ rest))) = true :=
      (startsWith_iff _ _).mpr ⟨_, rfl⟩
    unfold matchHere
    rw [if_pos hsw, List.drop_left]
    cases ws with
    | nil => exact absurd rfl hws
    | cons w ws2 =>
      have hw0 : isSpace w = true := hsp w (List.mem_cons_self _ _)
      simp only [List.cons_append, hw0, if_true]
      have hd : (w :: (ws2 ++ (name ++ rest))).dropWhile isSpace = name ++ rest := by
        have h1 := dropWhile_append_of_all isSpace (w :: ws2) (name ++ rest) hsp
        rw [List.cons_append] at h1
        rw [h1]
        apply dropWhile_of_head
        intro c hc
        cases name with
        | nil => exact absurd rfl hname
        | cons n ns =>
          simp only [List.cons_append, List.head?_cons, Option.some.injEq] at hc
          subst hc
          exact isWord_not_isSpace _ (hw _ (List.mem_cons_self _ _))
      rw [hd, takeWhile_append_of_all isWord name rest hw hrest]
      cases name with
      | nil => exact absurd rfl hname
      | cons n ns => simp

/-- A declaration stands at offset `i` exactly when the anchored matcher
succeeds on the text from offset `i`. -/
theorem declAt_iff (kw text : List Char) (i : Nat) (name : List Char) :
    DeclAt kw text i name ↔ i ≤ text.length ∧ matchHere kw (text.drop i) = some name := by
  constructor
  · rintro ⟨pre, ws, rest, rfl, rfl, hws, hsp, hname, hw, hrest⟩
    refine ⟨by simp, ?_⟩
    rw [List.drop_left]
    exact (matchHere_eq_some_iff _ _ _).mpr ⟨ws, rest, rfl, hws, hsp, hname, hw, hrest⟩
  · rintro ⟨hi, hm⟩
    obtain ⟨ws, rest, ht, hws, hsp, hname, hw, hrest⟩ := (matchHere_eq_some_iff _ _ _).mp hm
    refine ⟨text.take i, ws, rest, ?_, ?_, hws, hsp, hname, hw, hrest⟩
    · rw [← ht, List.take_append_drop]
    · simp [List.length_take, hi]

theorem regexMatch_eq_none_iff (kw text : List Char) :
    regexMatch kw text = none ↔ ∀ i, i ≤ text.length → matchHere kw (text.drop i) = none := by
  induction text with
  | nil =>
    simp only [regexMatch, List.length_nil, Nat.le_zero_eq, List.drop_nil]
    exact ⟨fun h _ _ => h, fun h => h 0 rfl⟩
  | cons c cs ih =>
    simp only [regexMatch]
    constructor
    · intro h i hi
      cases hm : matchHere kw (c :: cs) with
      | some n => rw [hm] at h; cases h
      | none =>
        rw [hm] at h
        cases i with
        | zero => exact hm
        | succ j =>
          rw [List.drop_succ_cons]
          exact (ih.mp h) j (by simpa using hi)
    · intro h
      have h0 := h 0 (Nat.zero_le _)
      rw [List.drop_zero] at h0
      rw [h0]
      apply ih.mpr
      intro j hj
      have := h (j + 1) (by simpa using hj)
      rwa [List.drop_succ_cons] at this

theorem regexMatch_eq_some_iff (kw text name : List Char) :
    regexMatch kw text = some name ↔
      ∃ i, i ≤ text.length ∧ matchHere kw (text.drop i) = some name ∧
        ∀ j, j < i → matchHere kw (text.drop j) = none := by
  induction text with
  | nil =>
    simp only [regexMatch, List.length_nil, Nat.le_zero_eq, List.drop_nil]
    constructor
    · intro h
      exact ⟨0, rfl, h, fun j hj => absurd hj (Nat.not_lt_zero j)⟩
    · rintro ⟨i, _, h, _⟩
      exact h
  | cons c cs ih =>
    simp only [regexMatch]
    cases hm : matchHere kw (c :: cs) with
    | some n =>
      constructor
      · intro h
        exact ⟨0, Nat.zero_le _, by rw [List.drop_zero, hm]; exact h,
          fun j hj => absurd hj (Nat.not_lt_zero j)⟩
      · rintro ⟨i, _, h, hlt⟩
        cases i with
        | zero =>
          rw [List.drop_zero, hm] at h
          exact h
        | succ j =>
          have := hlt 0 (Nat.succ_pos j)
          rw [List.drop_zero, hm] at this
          cases this
    | none =>
      simp only []
      rw [ih]
      constructor
      · rintro ⟨i, hi, h, hlt⟩
        refine ⟨i + 1, by simpa using hi, by rwa [List.drop_succ_cons], ?_⟩
        intro j hj
        cases j with
        | zero => rw [List.drop_zero]; exact hm
        | succ k =>
          rw [List.drop_succ_cons]
          exact hlt k (by omega)
      · rintro ⟨i, hi, h, hlt⟩
        cases i with
        | zero =>
          rw [List.drop_zero, hm] at h
          cases h
        | succ k =>
          refine ⟨k, by simpa using hi, by rwa [List.drop_succ_cons] at h, ?_⟩
          intro j hj
          have := hlt (j + 1) (by omega)
          rwa [List.drop_succ_cons] at this

/-- The matcher finds nothing exactly when the text has no declaration. -/
theorem regexMatch_none_iff_not_hasDecl (kw text : List Char) :
    regexMatch kw text = none ↔ ¬ HasDecl kw text := by
  rw [regexMatch_eq_none_iff]
  constructor
  · rintro h ⟨i, name, hd⟩
    obtain ⟨hi, hm⟩ := (declAt_iff kw text i name).mp hd
    rw [h i hi] at hm
    cases hm
  · intro h i hi
    cases hm : matchHere kw (text.drop i) with
    | none => rfl
    | some name => exact absurd ⟨i, name, (declAt_iff kw text i name).mpr ⟨hi, hm⟩⟩ h

/-- The matcher captures `name` exactly when `name` is the name of the first
declaration of the text. -/
theorem regexMatch_some_iff_firstDecl (kw text name : List Char) :
    regexMatch kw text = some name ↔ FirstDecl kw text name := by
  rw [regexMatch_eq_some_iff]
  constructor
  · rintro ⟨i, hi, hm, hlt⟩
    refine ⟨i, (declAt_iff kw text i name).mpr ⟨hi, hm⟩, ?_⟩
    intro j hj other hd
    obtain ⟨_, hm2⟩ := (declAt_iff kw text j other).mp hd
    rw [hlt j hj] at hm2
    cases hm2
  · rintro ⟨i, hd, hlt⟩
    obtain ⟨hi, hm⟩ := (declAt_iff kw text i name).mp hd
    refine ⟨i, hi, hm, ?_⟩
    intro j hj
    cases hm2 : matchHere kw (text.drop j) with
    | none => rfl
    | some other =>
      exact absurd ((declAt_iff kw text j other).mpr ⟨by omega, hm2⟩) (hlt j hj other)

/-- A text that has a declaration has a first one. -/
theorem hasDecl_firstDecl (kw text : List Char) (h : HasDecl kw text) :
    ∃ name, FirstDecl kw text name := by
  cases hm : regexMatch kw text with
  | none => exact absurd h ((regexMatch_none_iff_not_hasDecl kw text).mp hm)
  | some name => exact ⟨name, (regexMatch_some_iff_firstDecl kw text name).mp hm⟩

/-- C7: function declarations have priority over class declarations
regardless of textual order.  For every source text that contains at least
one function declaration, the resolved entry name is the name of its first
function declaration and the entry kind is function, whatever class
declarations the text contains and wherever they stand; only when the text
contains no function declaration but a class declaration is the name of the
first class declaration used, with entry kind class. -/
theorem C7_function_declarations_first (code : String) :
    (HasDecl "function".toList code.toList →
      ∃ name, FirstDecl "function".toList code.toList name ∧
        funcName code = some (String.mk name) ∧
        resolveEntry code = some { name := String.mk name, kind := .Function }) ∧
    (¬ HasDecl "function".toList code.toList → HasDecl "class".toList code.toList →
      ∃ name, FirstDecl "class".toList code.toList name ∧
        funcName code = some (String.mk name) ∧
        resolveEntry code = some { name := String.mk name, kind := .Class }) := by
  constructor
  · intro h
    cases hm : regexMatch "function".toList code.toList with
    | none => exact absurd h ((regexMatch_none_iff_not_hasDecl _ _).mp hm)
    | some name =>
      refine ⟨name, (regexMatch_some_iff_firstDecl _ _ name).mp hm, ?_, ?_⟩
      · simp only [funcName, functionMatch, hm, Option.map_some']
      · simp only [resolveEntry, functionMatch, hm, Option.map_some']
  · intro hno h
    have hf : regexMatch "function".toList code.toList = none :=
      (regexMatch_none_iff_not_hasDecl _ _).mpr hno
    cases hm : regexMatch "class".toList code.toList with
    | none => exact absurd h ((regexMatch_none_iff_not_hasDecl _ _).mp hm)
    | some name =>
      refine ⟨name, (regexMatch_some_iff_firstDecl _ _ name).mp hm, ?_, ?_⟩
      · simp only [funcName, functionMatch, classMatch, hf, hm, Option.map_some',
          Option.map_none']
      · simp only [resolveEntry, functionMatch, classMatch, hf, hm, Option.map_some',
          Option.map_none']

theorem hasDecl_of_regexMatch (kw text name : List Char) (h : regexMatch kw text = some name) :
    HasDecl kw text := by
  obtain ⟨i, hd, _⟩ := (regexMatch_some_iff_firstDecl kw text name).mp h
  exact ⟨i, name, hd⟩

theorem C7_function_declarations_first_witness :
    (∃ name, FirstDecl "function".toList classFirstSource.toList name ∧
        funcName classFirstSource = some (String.mk name) ∧
        resolveEntry classFirstSource = some { name := String.mk name, kind := .Function }) ∧
    (∃ name, FirstDecl "class".toList lruSource.toList name ∧
        funcName lruSource = some (String.mk name) ∧
        resolveEntry lruSource = some { name := String.mk name, kind := .Class }) :=
  ⟨(C7_function_declarations_first classFirstSource).1
      (hasDecl_of_regexMatch _ _ "solve".toList (by decide)),
   (C7_function_declarations_first lruSource).2
      ((regexMatch_none_iff_not_hasDecl _ _).mp (by decide))
      (hasDecl_of_regexMatch _ _ "LRUCache".toList (by decide))⟩

/-- The condition of line 38 in terms of the source and the input. -/
theorem usesClassHarness_iff (code : String) (tc : TestCase) :
    usesClassHarness code tc = true ↔
      HasDecl "class".toList code.toList ∧ ∃ a b, tc.input = .arr [a, b] := by
  have hcls : (classMatch code).isSome = true ↔ HasDecl "class".toList code.toList := by
    unfold classMatch
    cases hm : regexMatch "class".toList code.toList with
    | none =>
      simp only [Option.map_none', Option.isSome_none, Bool.false_eq_true, false_iff]
      exact (regexMatch_none_iff_not_hasDecl _ _).mp hm
    | some name =>
      simp only [Option.map_some', Option.isSome_some, true_iff]
      exact hasDecl_of_regexMatch _ _ name hm
  unfold usesClassHarness
  rw [Bool.and_eq_true, Bool.and_eq_true, hcls]
  constructor
  · rintro ⟨⟨h1, h2⟩, h3⟩
    refine ⟨h1, ?_⟩
    cases hin : tc.input with
    | arr xs =>
      rw [hin] at h3
      simp only [arrayLength, beq_iff_eq] at h3
      match xs, h3 with
      | [a, b], _ => exact ⟨a, b, rfl⟩
    | _ => rw [hin] at h2; simp [isArray] at h2
  · rintro ⟨h1, a, b, hin⟩
    rw [hin]
    exact ⟨⟨h1, rfl⟩, rfl⟩

/-- When the source has no function declaration, the class harness is
chosen exactly when the entry kind is class and the input is an array of
two elements. -/
theorem planner_without_function (code : String) (tc : TestCase)
    (hno : ¬ HasDecl "function".toList code.toList) :
    usesClassHarness code tc = true ↔
      (∃ name, resolveEntry code = some { name := name, kind := .Class }) ∧
        ∃ a b, tc.input = .arr [a, b] := by
  rw [usesClassHarness_iff]
  have hf : functionMatch code = none := by
    unfold functionMatch
    rw [(regexMatch_none_iff_not_hasDecl _ _).mpr hno]
    rfl
  constructor
  · rintro ⟨hc, hin⟩
    refine ⟨?_, hin⟩
    cases hm : regexMatch "class".toList code.toList with
    | none => exact absurd hc ((regexMatch_none_iff_not_hasDecl _ _).mp hm)
    | some n =>
      refine ⟨String.mk n, ?_⟩
      unfold resolveEntry
      rw [hf]
      simp only [classMatch, hm, Option.map_some']
  · rintro ⟨⟨name, hr⟩, hin⟩
    refine ⟨?_, hin⟩
    unfold resolveEntry at hr
    rw [hf] at hr
    simp only [] at hr
    unfold classMatch at hr
    cases hm : regexMatch "class".toList code.toList with
    | none => rw [hm] at hr; cases hr
    | some n => exact hasDecl_of_regexMatch _ _ n hm

/-- C8 (the code at the failing input): for the source `mixedSource` the
entry resolves to the function `add`, the test case has the two-element
input `[2, 3]`, and the handler chooses the class harness: the text it runs
constructs `new add(2)` and loops over `3`. -/
theorem C8_function_entry_gets_class_harness :
    resolveEntry mixedSource = some { name := "add", kind := .Function } ∧
    funcName mixedSource = some "add" ∧
    usesClassHarness mixedSource ⟨.arr [.num 2, .num 3], .num 5⟩ = true ∧
    harnessText mixedSource "add" ⟨.arr [.num 2, .num 3], .num 5⟩ =
      .ok (classTestCode mixedSource "add" "2" "3") := by
  refine ⟨by decide, by decide, by decide, by rfl⟩

/-! ## C9: the output of the class harness -/

theorem harnessLoop_put_get {σ : Type} (cls : JsClass σ) (ops : List CacheOp) (cache : σ)
    (acc : List JsVal) :
    harnessLoop cls (ops.map CacheOp.toJs) cache acc =
      match perOperationResults cls ops cache with
      | .error e => .error e
      | .ok out => .ok (acc ++ out) := by
  induction ops generalizing cache acc with
  | nil => simp [harnessLoop, perOperationResults]
  | cons op rest ih =>
    cases op with
    | put key value =>
      simp only [List.map_cons, CacheOp.toJs, harnessLoop, indexRead, List.getD_cons_zero,
        List.getD_cons_succ, if_true, perOperationResults]
      cases cls.put cache key value with
      | error e => rfl
      | ok r =>
        obtain ⟨v, cache2⟩ := r
        simp only [ih]
        cases perOperationResults cls rest cache2 with
        | error e => rfl
        | ok out => simp
    | get key =>
      have hne : (JsVal.str "get" = JsVal.str "put") = False := by
        simp
      simp only [List.map_cons, CacheOp.toJs, harnessLoop, indexRead, List.getD_cons_zero,
        List.getD_cons_succ, hne, if_false, if_true, perOperationResults]
      cases cls.get cache key with
      | error e => rfl
      | ok r =>
        obtain ⟨v, cache2⟩ := r
        simp only [ih]
        cases perOperationResults cls rest cache2 with
        | error e => rfl
        | ok out => simp

theorem perOperationResults_length {σ : Type} (cls : JsClass σ) (ops : List CacheOp)
    (cache : σ) (out : List JsVal) (h : perOperationResults cls ops cache = .ok out) :
    out.length = ops.length := by
  induction ops generalizing cache out with
  | nil =>
    simp only [perOperationResults, Except.ok.injEq] at h
    subst h
    rfl
  | cons op rest ih =>
    cases op with
    | put key value =>
      simp only [perOperationResults] at h
      cases hp : cls.put cache key value with
      | error e => simp [hp] at h
      | ok r =>
        obtain ⟨v, cache2⟩ := r
        simp only [hp] at h
        cases hr : perOperationResults cls rest cache2 with
        | error e => simp [hr] at h
        | ok out2 =>
          simp only [hr, Except.ok.injEq] at h
          subst h
          simp [ih cache2 out2 hr]
    | get key =>
      simp only [perOperationResults] at h
      cases hp : cls.get cache key with
      | error e => simp [hp] at h
      | ok r =>
        obtain ⟨v, cache2⟩ := r
        simp only [hp] at h
        cases hr : perOperationResults cls rest cache2 with
        | error e => simp [hr] at h
        | ok out2 =>
          simp only [hr, Except.ok.injEq] at h
          subst h
          simp [ih cache2 out2 hr]

/-- C9 (counterexample): against the least-recently-used cache of capacity
2, the two operations `[["put",1,1],["has",1]]` give the output `[null]`:
the operation tagged `has` contributes no entry, so the output is shorter
than the operation sequence. -/
theorem C9_other_tag_counterexample :
    classHarness lruCache "2"
        (.arr [.arr [.str "put", .num 1, .num 1], .arr [.str "has", .num 1]]) =
      .ok (.arr [.null]) ∧
    ([JsVal.arr [.str "put", .num 1, .num 1], JsVal.arr [.str "has", .num 1]]).length = 2 ∧
    ([JsVal.null]).length = 1 := by
  refine ⟨by rfl, by rfl, by rfl⟩

/-- C9 (amended): under the stateful protocol, for every class and every
operation sequence made of `put` and `get` operations, the harness output is
the ordered sequence of per-operation results (`null` for each `put`, the
method's return value for each `get`, an exception of a call ending the
run), so an output has the same length as the operation sequence.  For the
scenario of the specification the handler runs `new LRUCache(2)` over the
five operations, and the least-recently-used cache yields
`[null,null,1,null,-1]`. -/
theorem C9_put_get_output :
    (∀ (σ : Type) (cls : JsClass σ) (capacityText : String) (ops : List CacheOp),
      classHarness cls capacityText (.arr (ops.map CacheOp.toJs)) =
        (match cls.construct capacityText with
         | .error e => .error e
         | .ok cache =>
           match perOperationResults cls ops cache with
           | .error e => .error e
           | .ok out => .ok (.arr out)) ∧
      ∀ out, classHarness cls capacityText (.arr (ops.map CacheOp.toJs)) = .ok (.arr out) →
        out.length = ops.length) ∧
    harnessText lruSource "LRUCache"
        ⟨.arr [.num 2, .arr (scenarioOps.map CacheOp.toJs)],
          .arr [.null, .null, .num 1, .null, .num (-1)]⟩ =
      .ok (classTestCode lruSource "LRUCache" "2"
        "[[\"put\",1,1],[\"put\",2,2],[\"get\",1],[\"put\",3,3],[\"get\",2]]") ∧
    classHarness lruCache "2" (.arr (scenarioOps.map CacheOp.toJs)) =
      .ok (.arr [.null, .null, .num 1, .null, .num (-1)]) := by
  refine ⟨?_, by rfl, by rfl⟩
  intro σ cls capacityText ops
  have heq : classHarness cls capacityText (.arr (ops.map CacheOp.toJs)) =
      (match cls.construct capacityText with
       | .error e => .error e
       | .ok cache =>
         match perOperationResults cls ops cache with
         | .error e => .error e
         | .ok out => .ok (.arr out)) := by
    unfold classHarness
    cases cls.construct capacityText with
    | error e => rfl
    | ok cache =>
      simp only [iterate, harnessLoop_put_get]
      cases perOperationResults cls ops cache with
      | error e => rfl
      | ok out => simp
  refine ⟨heq, ?_⟩
  intro out hout
  rw [heq] at hout
  cases hc : cls.construct capacityText with
  | error e => simp [hc] at hout
  | ok cache =>
    simp only [hc] at hout
    cases hp : perOperationResults cls ops cache with
    | error e => simp [hp] at hout
    | ok out2 =>
      simp only [hp, Except.ok.injEq, JsVal.arr.injEq] at hout
      subst hout
      exact perOperationResults_length cls ops cache out2 hp

theorem C9_put_get_output_witness :
    ([JsVal.null, JsVal.null, JsVal.num 1, JsVal.null, JsVal.num (-1)]).length =
      scenarioOps.length :=
  (C9_put_get_output.1 LruState lruCache "2" scenarioOps).2
    [.null, .null, .num 1, .null, .num (-1)] (by rfl)

/-! ## C11, C12: validation and the outer `catch` -/

/-- C11 (counterexample): a request that supplies a code string (the empty
one) and a list of test cases is rejected by validation. -/
theorem C11_empty_code_counterexample :
    (⟨some "", some [⟨.arr [.num 2, .num 3], .num 5⟩], .str "t1"⟩ : RequestBody).code.isSome
      = true ∧
    (⟨some "", some [⟨.arr [.num 2, .num 3], .num 5⟩], .str "t1"⟩ : RequestBody).testCases.isSome
      = true ∧
    execute vmReturnsFive ⟨some "", some [⟨.arr [.num 2, .num 3], .num 5⟩], .str "t1"⟩ =
      { status := 400, error := some (.str "Code and test cases are required"),
        allPassed := none, results := none, taskId := none } := by
  decide

/-- C11 (amended): a request is rejected as a validation failure exactly
when `code` is missing or the empty string, or `testCases` is missing.  The
answer is then 400 with a payload carrying only an error message, the same
for every source, every test case and every interpreter behaviour (nothing
is resolved or executed); a request that supplies a non-empty code string and
a list of test cases is never rejected by validation. -/
theorem C11_validation_rejects_exactly (vmRun : String → Except JsVal Returned)
    (body : RequestBody) :
    execute vmRun body =
        { status := 400, error := some (.str "Code and test cases are required"),
          allPassed := none, results := none, taskId := none } ↔
      (body.code = none ∨ body.code = some "" ∨ body.testCases = none) := by
  obtain ⟨c, t, taskId⟩ := body
  cases c with
  | none => simp [execute, validationFailure]
  | some code =>
    cases t with
    | none => simp [execute, validationFailure]
    | some testCases =>
      by_cases hcode : code = ""
      · subst hcode
        simp [execute, validationFailure]
      · simp only [reduceCtorEq, Option.some.injEq, hcode, or_self, iff_false]
        unfold execute
        simp only [hcode, if_false]
        cases funcName code with
        | none => simp [entryNotFound]
        | some name =>
          simp only []
          split
          · simp [entryNotFound]
          · cases runLoop vmRun code name testCases { results := [], allPassed := true } with
            | ok st => simp [report]
            | error m => simp [internalFailure]

/-- The payload of the outer `catch` determines the message of the internal
error. -/
theorem internalFailure_injective (m1 m2 : String)
    (h : internalFailure m1 = internalFailure m2) : m1 = m2 := by
  simpa [internalFailure] using h

/-- C12 (the code at the failing inputs): two internal failures, one from a
run that throws `null` and one from a run that throws `undefined`; the 500
payloads carry the messages of the two internal `TypeError`s and differ. -/
theorem C12_internal_message_exposed :
    execute vmThrowsNull
      ⟨some "function f() \x7b throw null; \x7d", some [⟨.arr [], .num 1⟩], .str "t1"⟩ =
      { status := 500,
        error := some (.str "Cannot read properties of null (reading \x27message\x27)"),
        allPassed := some false, results := some [], taskId := none } ∧
    execute vmThrowsUndefined
      ⟨some "function f() \x7b throw undefined; \x7d", some [⟨.arr [], .num 1⟩], .str "t1"⟩ =
      { status := 500,
        error := some (.str "Cannot read properties of undefined (reading \x27message\x27)"),
        allPassed := some false, results := some [], taskId := none } ∧
    execute vmThrowsNull
      ⟨some "function f() \x7b throw null; \x7d", some [⟨.arr [], .num 1⟩], .str "t1"⟩ ≠
    execute vmThrowsUndefined
      ⟨some "function f() \x7b throw undefined; \x7d", some [⟨.arr [], .num 1⟩], .str "t1"⟩ := by
  decide

/-! ## C13, C14, C15: the client and the local fallback -/

theorem localIteration_slot {G : Type}
    (localRun : G → String → JsVal → Except JsVal Returned × G)
    (userCode : String) (g : G) (st : LoopState) (tc : TestCase) :
    localIteration localRun userCode g st tc =
      ((match slotOf tc
            (localRun g (wrappedCode userCode (getFunctionName userCode)) tc.input).1 with
        | .error m => .error m
        | .ok r => .ok { results := st.results ++ [r], allPassed := st.allPassed && r.passed }),
       (localRun g (wrappedCode userCode (getFunctionName userCode)) tc.input).2) := by
  have hcatch : ∀ e, localCatchBody st tc e = catchBody st tc e := fun _ => rfl
  unfold localIteration localTryBody slotOf
  rcases h : localRun g (wrappedCode userCode (getFunctionName userCode)) tc.input with ⟨r, g2⟩
  cases r with
  | error e => simp only [hcatch, catchBody_eq]
  | ok output =>
    simp only []
    cases jsonStringify output with
    | error e => simp only [hcatch, catchBody_eq]
    | ok text =>
      simp only []
      by_cases hp : text = stringify tc.expected <;> simp [hp]

theorem localIteration_eq {G : Type} (localRun : G → String → JsVal → Except JsVal Returned × G)
    (userCode : String) (g : G) (st : LoopState) (tc : TestCase) :
    localIteration localRun userCode g st tc =
      match localRun g (wrappedCode userCode (getFunctionName userCode)) tc.input with
      | (.ok output, g2) =>
        (match jsonStringify output with
         | .ok text =>
           .ok { results := st.results ++ [{
                   input := tc.input, expected := tc.expected, output := some output,
                   error := none,
                   passed := decide (text = stringify tc.expected) }],
                 allPassed :=
                   st.allPassed && decide (text = stringify tc.expected) }
         | .error e =>
           match readMessage e with
           | .error m => .error m
           | .ok message =>
             .ok { results := st.results ++ [{
                     input := tc.input, expected := tc.expected, output := none,
                     error := some message, passed := false }],
                   allPassed := false }, g2)
      | (.error e, g2) =>
        (match readMessage e with
         | .error m => .error m
         | .ok message =>
           .ok { results := st.results ++ [{
                   input := tc.input, expected := tc.expected, output := none,
                   error := some message, passed := false }],
                 allPassed := false }, g2) := by
  unfold localIteration localTryBody
  rcases h : localRun g (wrappedCode userCode (getFunctionName userCode)) tc.input with ⟨r, g2⟩
  cases r with
  | error e => simp [localCatchBody]
  | ok output =>
    simp only []
    cases jsonStringify output with
    | error e => simp [localCatchBody]
    | ok text =>
      simp only []
      by_cases hp : text = stringify tc.expected <;> simp [hp]

theorem localIteration_ok {G : Type} (localRun : G → String → JsVal → Except JsVal Returned × G)
    (userCode : String) (g g2 : G) (st st2 : LoopState) (tc : TestCase)
    (h : localIteration localRun userCode g st tc = (.ok st2, g2)) :
    ∃ r, st2.results = st.results ++ [r] ∧ st2.allPassed = (st.allPassed && r.passed) := by
  rw [localIteration_slot] at h
  simp only [Prod.mk.injEq] at h
  obtain ⟨h1, _⟩ := h
  cases hs : slotOf tc
      (localRun g (wrappedCode userCode (getFunctionName userCode)) tc.input).1 with
  | error m => simp [hs] at h1
  | ok r =>
    simp only [hs, Except.ok.injEq] at h1
    subst h1
    exact ⟨r, rfl, rfl⟩

theorem localLoop_ok {G : Type} (localRun : G → String → JsVal → Except JsVal Returned × G)
    (userCode : String) (tcs : List TestCase) (g g2 : G) (st st2 : LoopState)
    (h : localLoop localRun userCode tcs g st = (.ok st2, g2)) :
    ∃ rs, st2.results = st.results ++ rs ∧ rs.length = tcs.length ∧
      st2.allPassed = (st.allPassed && allOfPassed rs) := by
  induction tcs generalizing g st with
  | nil =>
    simp only [localLoop, Prod.mk.injEq, Except.ok.injEq] at h
    obtain ⟨h1, _⟩ := h
    subst h1
    exact ⟨[], by simp, rfl, by simp [allOfPassed]⟩
  | cons tc rest ih =>
    simp only [localLoop] at h
    rcases hi : localIteration localRun userCode g st tc with ⟨r, g3⟩
    rw [hi] at h
    cases r with
    | error m => simp at h
    | ok st3 =>
      simp only [] at h
      obtain ⟨r1, hr1, ha1⟩ := localIteration_ok localRun userCode g g3 st st3 tc hi
      obtain ⟨rs, hrs, hlen, hall⟩ := ih g3 st3 h
      refine ⟨r1 :: rs, ?_, by simp [hlen], ?_⟩
      · rw [hrs, hr1, List.append_assoc, List.singleton_append]
      · rw [hall, ha1]
        simp [allOfPassed, Bool.and_assoc]

/-- The local loop completes whenever the read of `message` succeeds on
every value a `catch` clause receives. -/
theorem localLoop_completes {G : Type}
    (localRun : G → String → JsVal → Except JsVal Returned × G)
    (userCode : String) (tcs : List TestCase) (g : G) (st : LoopState)
    (hok : ∀ g1 tc e, tc ∈ tcs →
      caughtIn (localRun g1 (wrappedCode userCode (getFunctionName userCode)) tc.input).1 =
        some e →
      ∃ message, readMessage e = .ok message) :
    ∃ st2 g2, localLoop localRun userCode tcs g st = (.ok st2, g2) := by
  induction tcs generalizing g st with
  | nil => exact ⟨st, g, rfl⟩
  | cons tc rest ih =>
    have htc := hok g tc
    simp only [localLoop, localIteration_slot]
    cases hs : slotOf tc
        (localRun g (wrappedCode userCode (getFunctionName userCode)) tc.input).1 with
    | error m =>
      obtain ⟨e, he, hm⟩ := (slotOf_error_iff tc _ m).mp hs
      obtain ⟨message, hmsg⟩ := htc e (List.mem_cons_self _ _) he
      rw [hmsg] at hm
      cases hm
    | ok r =>
      simp only []
      exact ih _ _ (fun g1 t e ht => hok g1 t e (List.mem_cons_of_mem _ ht))

theorem execute_status (vmRun : String → Except JsVal Returned) (body : RequestBody) :
    (execute vmRun body).status = 200 ∨ (execute vmRun body).status = 400 ∨
      (execute vmRun body).status = 500 := by
  unfold execute
  split
  · split
    · exact Or.inr (Or.inl rfl)
    · split
      · exact Or.inr (Or.inl rfl)
      · split
        · exact Or.inr (Or.inl rfl)
        · split
          · exact Or.inl rfl
          · exact Or.inr (Or.inr rfl)
  · exact Or.inr (Or.inl rfl)

/-- C13 (counterexample): the primary executor answers the request for
`arrowSource` with the 400 entry-point-not-found payload, and answers a
submission whose run throws `null` with a 500 payload; in both cases
`runTests` calls `runTestsLocally`, and in the first the local report passes
and the task is completed. -/
theorem C13_answered_request_counterexample :
    (execute vmReturnsFive
      ⟨some arrowSource, some [⟨.arr [.num 2, .num 3], .num 5⟩], .str "t1"⟩).status = 400 ∧
    (runTests localReturnsFive
      (.answered (execute vmReturnsFive
        ⟨some arrowSource, some [⟨.arr [.num 2, .num 3], .num 5⟩], .str "t1"⟩))
      arrowSource [⟨.arr [.num 2, .num 3], .num 5⟩] false ()).ranLocally = true ∧
    (runTests localReturnsFive
      (.answered (execute vmReturnsFive
        ⟨some arrowSource, some [⟨.arr [.num 2, .num 3], .num 5⟩], .str "t1"⟩))
      arrowSource [⟨.arr [.num 2, .num 3], .num 5⟩] false ()).completed = true ∧
    (execute vmThrowsNull
      ⟨some "function f() \x7b throw null; \x7d", some [⟨.arr [], .num 1⟩], .str "t1"⟩).status
      = 500 ∧
    (runTests localReturnsFive
      (.answered (execute vmThrowsNull
        ⟨some "function f() \x7b throw null; \x7d", some [⟨.arr [], .num 1⟩], .str "t1"⟩))
      "function f() \x7b throw null; \x7d" [⟨.arr [], .num 1⟩] false ()).ranLocally = true := by
  decide

/-- C13 (amended): `runTests` does not call `runTestsLocally` exactly when
the primary executor answers with a status in `200..299`; when the primary
is unreachable, and also when it answers with any other status, the
submitted code is executed locally.  For the answers of the `/execute`
handler: the fallback is skipped exactly for the 200 report, and is run
after the 400 validation payload, the 400 entry-point-not-found payload and
the 500 payload. -/
theorem C13_fallback_unless_2xx {G : Type}
    (localRun : G → String → JsVal → Except JsVal Returned × G) (code : String)
    (testCases : List TestCase) (isCompleted : Bool) (g : G) :
    (∀ outcome : PrimaryOutcome,
      (runTests localRun outcome code testCases isCompleted g).ranLocally = false ↔
        ∃ response, outcome = .answered response ∧
          200 ≤ response.status ∧ response.status < 300) ∧
    (runTests localRun .unreachable code testCases isCompleted g).ranLocally = true ∧
    (∀ (vmRun : String → Except JsVal Returned) (body : RequestBody),
      (runTests localRun (.answered (execute vmRun body)) code testCases isCompleted
          g).ranLocally = false ↔
        (execute vmRun body).status = 200) := by
  have key : ∀ outcome : PrimaryOutcome,
      (runTests localRun outcome code testCases isCompleted g).ranLocally = false ↔
        ∃ response, outcome = .answered response ∧
          200 ≤ response.status ∧ response.status < 300 := by
    intro outcome
    unfold runTests
    cases outcome with
    | unreachable =>
      simp only [executeCode]
      rcases runTestsLocally localRun code testCases g with ⟨r, g2⟩
      cases r <;> simp
    | answered response =>
      by_cases hs : 200 ≤ response.status ∧ response.status < 300
      · simp only [executeCode, hs, and_self, if_true]
        simp [hs]
      · simp only [executeCode, hs, if_false]
        rcases runTestsLocally localRun code testCases g with ⟨r, g2⟩
        cases r <;> simp [hs]
  refine ⟨key, ?_, ?_⟩
  · cases h : (runTests localRun .unreachable code testCases isCompleted g).ranLocally with
    | true => rfl
    | false =>
      obtain ⟨response, hr, _⟩ := (key .unreachable).mp h
      cases hr
  · intro vmRun body
    rw [key]
    constructor
    · rintro ⟨response, hr, h1, h2⟩
      injection hr with hr
      subst hr
      rcases execute_status vmRun body with h | h | h
      · exact h
      · omega
      · omega
    · intro h
      exact ⟨_, rfl, by omega, by omega⟩

/-- C14 (counterexample): `arrowSource` has no function or class
declaration, and the fallback executor returns for it a report with
`allPassed` true and one passing result. -/
theorem C14_fallback_default_counterexample :
    functionMatch arrowSource = none ∧ classMatch arrowSource = none ∧
    runTestsLocally localReturnsFive arrowSource [⟨.arr [.num 2, .num 3], .num 5⟩] () =
      (.ok { allPassed := true,
             results := [{ input := .arr [.num 2, .num 3], expected := .num 5,
                           output := some (.plain (.num 5)), error := none,
                           passed := true }] }, ()) := by
  refine ⟨by decide, by decide, by rfl⟩

/-- C14 (amended): in the fallback executor a submission with no function or
class declaration is not short-circuited.  The entry name defaults to
`solution`.  Every iteration of the loop builds the call harness
`return solution(...args)`, runs it on the input of its test case and
records the outcome as an ordinary result: the returned value with its
comparison to `expected`, or the `message` of the value caught (the value
the run throws, or the one `JSON.stringify` throws on the returned value).
Every report `runTestsLocally` returns has one result per test case and
`allPassed` equal to the AND of their `passed` flags (so `results` is empty
only for an empty list of test cases, and then `allPassed` is true).  A
report is returned whenever the read of `message` succeeds on every caught
value. -/
theorem C14_fallback_default_entry {G : Type}
    (localRun : G → String → JsVal → Except JsVal Returned × G) (code : String)
    (testCases : List TestCase) (g : G)
    (hf : functionMatch code = none) (hc : classMatch code = none) :
    getFunctionName code = "solution" ∧
    (∀ (g1 : G) (st : LoopState) (tc : TestCase),
      localIteration localRun code g1 st tc =
        match localRun g1 (wrappedCode code "solution") tc.input with
        | (.ok output, g2) =>
          (match jsonStringify output with
           | .ok text =>
             .ok { results := st.results ++ [{
                     input := tc.input, expected := tc.expected, output := some output,
                     error := none,
                     passed := decide (text = stringify tc.expected) }],
                   allPassed :=
                     st.allPassed && decide (text = stringify tc.expected) }
           | .error e =>
             match readMessage e with
             | .error m => .error m
             | .ok message =>
               .ok { results := st.results ++ [{
                       input := tc.input, expected := tc.expected, output := none,
                       error := some message, passed := false }],
                     allPassed := false }, g2)
        | (.error e, g2) =>
          (match readMessage e with
           | .error m => .error m
           | .ok message =>
             .ok { results := st.results ++ [{
                     input := tc.input, expected := tc.expected, output := none,
                     error := some message, passed := false }],
                   allPassed := false }, g2)) ∧
    (∀ rep g2, runTestsLocally localRun code testCases g = (.ok rep, g2) →
      rep.results.length = testCases.length ∧ rep.allPassed = allOfPassed rep.results ∧
      (rep.results = [] ↔ testCases = [])) ∧
    (runTestsLocally localRun code [] g = (.ok { allPassed := true, results := [] }, g)) ∧
    ((∀ g1 tc e, tc ∈ testCases →
        caughtIn (localRun g1 (wrappedCode code "solution") tc.input).1 = some e →
        ∃ message, readMessage e = .ok message) →
      ∃ rep g2, runTestsLocally localRun code testCases g = (.ok rep, g2)) := by
  have hname : getFunctionName code = "solution" := by
    simp [getFunctionName, hf, hc]
  refine ⟨hname, ?_, ?_, rfl, ?_⟩
  · intro g1 st tc
    rw [localIteration_eq, hname]
  · intro rep g2 h
    unfold runTestsLocally at h
    rcases hl : localLoop localRun code testCases g { results := [], allPassed := true }
      with ⟨r, g3⟩
    rw [hl] at h
    cases r with
    | error m => simp at h
    | ok st =>
      simp only [Prod.mk.injEq, Except.ok.injEq] at h
      obtain ⟨h1, _⟩ := h
      subst h1
      obtain ⟨rs, hrs, hlen, hall⟩ := localLoop_ok localRun code testCases g g3 _ st hl
      simp only [List.nil_append, Bool.true_and] at hrs hall
      refine ⟨by simp [hrs, hlen], by simp [hrs, hall], ?_⟩
      simp only [hrs]
      rw [← List.length_eq_zero, hlen, List.length_eq_zero]
  · intro hok
    rw [← hname] at hok
    obtain ⟨st2, g2, h⟩ :=
      localLoop_completes localRun code testCases g { results := [], allPassed := true } hok
    exact ⟨{ allPassed := st2.allPassed, results := st2.results }, g2, by
      simp [runTestsLocally, h]⟩

theorem C14_fallback_default_entry_witness :
    getFunctionName arrowSource = "solution" ∧
    (∀ (g1 : Unit) (st : LoopState) (tc : TestCase),
      localIteration localReturnsFive arrowSource g1 st tc =
        match localReturnsFive g1 (wrappedCode arrowSource "solution") tc.input with
        | (.ok output, g2) =>
          (match jsonStringify output with
           | .ok text =>
             .ok { results := st.results ++ [{
                     input := tc.input, expected := tc.expected, output := some output,
                     error := none,
                     passed := decide (text = stringify tc.expected) }],
                   allPassed :=
                     st.allPassed && decide (text = stringify tc.expected) }
           | .error e =>
             match readMessage e with
             | .error m => .error m
             | .ok message =>
               .ok { results := st.results ++ [{
                       input := tc.input, expected := tc.expected, output := none,
                       error := some message, passed := false }],
                     allPassed := false }, g2)
        | (.error e, g2) =>
          (match readMessage e with
           | .error m => .error m
           | .ok message =>
             .ok { results := st.results ++ [{
                     input := tc.input, expected := tc.expected, output := none,
                     error := some message, passed := false }],
                   allPassed := false }, g2)) ∧
    (∀ rep g2,
      runTestsLocally localReturnsFive arrowSource [⟨.arr [.num 2, .num 3], .num 5⟩] () =
        (.ok rep, g2) →
      rep.results.length = ([⟨.arr [.num 2, .num 3], .num 5⟩] : List TestCase).length ∧
        rep.allPassed = allOfPassed rep.results ∧
        (rep.results = [] ↔ ([⟨.arr [.num 2, .num 3], .num 5⟩] : List TestCase) = [])) ∧
    (runTestsLocally localReturnsFive arrowSource [] () =
      (.ok { allPassed := true, results := [] }, ())) ∧
    ((∀ g1 tc e, tc ∈ ([⟨.arr [.num 2, .num 3], .num 5⟩] : List TestCase) →
        caughtIn (localReturnsFive g1 (wrappedCode arrowSource "solution") tc.input).1 =
          some e →
        ∃ message, readMessage e = .ok message) →
      ∃ rep g2,
        runTestsLocally localReturnsFive arrowSource [⟨.arr [.num 2, .num 3], .num 5⟩] () =
          (.ok rep, g2)) :=
  C14_fallback_default_entry localReturnsFive arrowSource [⟨.arr [.num 2, .num 3], .num 5⟩] ()
    (by decide) (by decide)

theorem resolveEntry_class (code name : String)
    (h : resolveEntry code = some { name := name, kind := .Class }) :
    functionMatch code = none ∧ classMatch code = some name := by
  unfold resolveEntry at h
  cases hf : functionMatch code with
  | some n => simp [hf] at h
  | none =>
    cases hc : classMatch code with
    | none => simp [hf, hc] at h
    | some n =>
      simp only [hf, hc, Option.some.injEq, EntryDescriptor.mk.injEq, and_true] at h
      subst h
      exact ⟨rfl, rfl⟩

set_option maxRecDepth 8000 in
/-- C15 (counterexample): the entry of `lruSource` resolves to the class
`LRUCache` and the test case has the shape `[constructorArg, operations]`;
`runTestsLocally` builds the pure call harness `return LRUCache(...args)`,
runs it, and returns an ordinary report whose single result carries the
error thrown by that call. -/
theorem C15_fallback_class_counterexample :
    resolveEntry lruSource = some { name := "LRUCache", kind := .Class } ∧
    runTestsLocally localClassCall lruSource
        [⟨.arr [.num 2, .arr (scenarioOps.map CacheOp.toJs)],
          .arr [.null, .null, .num 1, .null, .num (-1)]⟩] () =
      (.ok { allPassed := false,
             results := [{
               input := .arr [.num 2, .arr (scenarioOps.map CacheOp.toJs)],
               expected := .arr [.null, .null, .num 1, .null, .num (-1)],
               output := none,
               error := some (.str
                 "Class constructor LRUCache cannot be invoked without \x27new\x27"),
               passed := false }] }, ()) := by
  refine ⟨by decide, by rfl⟩

/-- C15 (amended): the fallback executor implements the pure protocol only
and does not reject or flag the stateful case.  For every submission whose
entry resolves to a class `name` and every test case, whatever the shape of
its input, the iteration of `runTestsLocally` builds the pure call harness
`return name(...args)`, runs it on the input, and records the outcome as an
ordinary result: the returned value compared with `expected`, or the message
of the thrown value (also of the value `JSON.stringify` throws on the
returned value). -/
theorem C15_fallback_runs_pure_harness {G : Type}
    (localRun : G → String → JsVal → Except JsVal Returned × G) (code name : String)
    (g : G) (st : LoopState) (tc : TestCase)
    (h : resolveEntry code = some { name := name, kind := .Class }) :
    getFunctionName code = name ∧
    localIteration localRun code g st tc =
      match localRun g (wrappedCode code name) tc.input with
      | (.ok output, g2) =>
        (match jsonStringify output with
         | .ok text =>
           .ok { results := st.results ++ [{
                   input := tc.input, expected := tc.expected, output := some output,
                   error := none,
                   passed := decide (text = stringify tc.expected) }],
                 allPassed :=
                   st.allPassed && decide (text = stringify tc.expected) }
         | .error e =>
           match readMessage e with
           | .error m => .error m
           | .ok message =>
             .ok { results := st.results ++ [{
                     input := tc.input, expected := tc.expected, output := none,
                     error := some message, passed := false }],
                   allPassed := false }, g2)
      | (.error e, g2) =>
        (match readMessage e with
         | .error m => .error m
         | .ok message =>
           .ok { results := st.results ++ [{
                   input := tc.input, expected := tc.expected, output := none,
                   error := some message, passed := false }],
                 allPassed := false }, g2) := by
  obtain ⟨hf, hc⟩ := resolveEntry_class code name h
  have hname : getFunctionName code = name := by
    simp [getFunctionName, hf, hc]
  refine ⟨hname, ?_⟩
  rw [localIteration_eq, hname]

set_option maxRecDepth 8000 in
theorem C15_fallback_runs_pure_harness_witness :
    getFunctionName lruSource = "LRUCache" ∧
    localIteration localClassCall lruSource () { results := [], allPassed := true }
        ⟨.arr [.num 2, .arr (scenarioOps.map CacheOp.toJs)],
          .arr [.null, .null, .num 1, .null, .num (-1)]⟩ =
      match localClassCall () (wrappedCode lruSource "LRUCache")
          (.arr [.num 2, .arr (scenarioOps.map CacheOp.toJs)]) with
      | (.ok output, g2) =>
        (match jsonStringify output with
         | .ok text =>
           .ok { results := [] ++ [{
                   input := .arr [.num 2, .arr (scenarioOps.map CacheOp.toJs)],
                   expected := .arr [.null, .null, .num 1, .null, .num (-1)],
                   output := some output, error := none,
                   passed := decide (text =
                     stringify (.arr [.null, .null, .num 1, .null, .num (-1)])) }],
                 allPassed := true && decide (text =
                     stringify (.arr [.null, .null, .num 1, .null, .num (-1)])) }
         | .error e =>
           match readMessage e with
           | .error m => .error m
           | .ok message =>
             .ok { results := [] ++ [{
                     input := .arr [.num 2, .arr (scenarioOps.map CacheOp.toJs)],
                     expected := .arr [.null, .null, .num 1, .null, .num (-1)],
                     output := none, error := some message, passed := false }],
                   allPassed := false }, g2)
      | (.error e, g2) =>
        (match readMessage e with
         | .error m => .error m
         | .ok message =>
           .ok { results := [] ++ [{
                   input := .arr [.num 2, .arr (scenarioOps.map CacheOp.toJs)],
                   expected := .arr [.null, .null, .num 1, .null, .num (-1)],
                   output := none, error := some message, passed := false }],
                 allPassed := false }, g2) :=
  C15_fallback_runs_pure_harness localClassCall lruSource "LRUCache" ()
    { results := [], allPassed := true }
    ⟨.arr [.num 2, .arr (scenarioOps.map CacheOp.toJs)],
      .arr [.null, .null, .num 1, .null, .num (-1)]⟩ (by decide)

/-! ## C16, C17, C18: the comparator -/

/-- The `passed` flag of the slot of a returning execution is the value of
the comparator. -/
theorem slotFor_passed (vmRun : String → Except JsVal Returned) (code name : String)
    (tc : TestCase) (output : JsVal) (h : attempt vmRun code name tc = .ok (.plain output)) :
    slotFor vmRun code name tc =
      .ok { input := tc.input, expected := tc.expected, output := some (.plain output),
            error := none, passed := comparator output tc.expected } := by
  simp [slotFor, slotOf, jsonStringify, h, comparator]

theorem stringifyFields_congr (kvs1 kvs2 : List (String × JsVal))
    (h : List.Forall₂ (fun p q => p.1 = q.1 ∧ stringify p.2 = stringify q.2) kvs1 kvs2) :
    stringifyFields kvs1 = stringifyFields kvs2 := by
  induction h with
  | nil => rfl
  | @cons p q t1 t2 hpq _ ih =>
    obtain ⟨k1, v1⟩ := p
    obtain ⟨k2, v2⟩ := q
    obtain ⟨hk, hv⟩ := hpq
    simp only at hk hv
    subst hk
    simp only [stringifyFields, hv, ih]

/-- C16 (counterexample): the mappings `{ b: 2, a: 1 }` and `{ a: 1, b: 2 }`
have the same key set and equal values under each key, and the comparator
answers false; the handler reports the test as failed. -/
theorem C16_key_order_counterexample :
    (∀ k ∈ ["a", "b"],
      List.lookup k [("b", JsVal.num 2), ("a", JsVal.num 1)] =
        List.lookup k [("a", JsVal.num 1), ("b", JsVal.num 2)]) ∧
    comparator (.obj [("b", .num 2), ("a", .num 1)]) (.obj [("a", .num 1), ("b", .num 2)])
      = false ∧
    (execute vmReturnsSwappedKeys
      ⟨some "function f() \x7b return \x7b b: 2, a: 1 \x7d; \x7d",
        some [⟨.arr [], .obj [("a", .num 1), ("b", .num 2)]⟩], .str "t1"⟩).allPassed =
      some false := by
  decide

/-- C16 (amended): the comparator reads mappings in the order of their
keys: for every output and expected value that are mappings with the same
keys in the same order and, under each key, values the comparator treats as
equal, `passed` is true. -/
theorem C16_same_keys_same_order (kvs1 kvs2 : List (String × JsVal))
    (h : List.Forall₂ (fun p q => p.1 = q.1 ∧ comparator p.2 q.2 = true) kvs1 kvs2) :
    comparator (.obj kvs1) (.obj kvs2) = true := by
  have h2 : List.Forall₂ (fun p q => p.1 = q.1 ∧ stringify p.2 = stringify q.2) kvs1 kvs2 :=
    h.imp (fun {p q} hpq => ⟨hpq.1, by simpa [comparator] using hpq.2⟩)
  simp [comparator, stringify, stringifyFields_congr kvs1 kvs2 h2]

theorem C16_same_keys_same_order_witness :
    comparator (.obj [("a", .num 1), ("b", .arr [.undefined])])
      (.obj [("a", .num 1), ("b", .arr [.null])]) = true :=
  C16_same_keys_same_order _ _
    (List.Forall₂.cons ⟨rfl, by decide⟩ (List.Forall₂.cons ⟨rfl, by decide⟩ List.Forall₂.nil))

theorem digitChar_isDigit (k : Nat) (h : k < 10) : (Nat.digitChar k).isDigit = true := by
  interval_cases k <;> rfl

theorem toDigitsCore_digits (fuel n : Nat) (ds : List Char) :
    ∃ pre, Nat.toDigitsCore 10 fuel n ds = pre ++ ds ∧ (∀ c ∈ pre, c.isDigit = true) ∧
      (0 < fuel → pre ≠ []) := by
  induction fuel generalizing n ds with
  | zero => exact ⟨[], rfl, by simp, by simp⟩
  | succ fuel ih =>
    have hd : (Nat.digitChar (n % 10)).isDigit = true :=
      digitChar_isDigit _ (Nat.mod_lt _ (by decide))
    simp only [Nat.toDigitsCore]
    by_cases h0 : n / 10 = 0
    · rw [if_pos h0]
      refine ⟨[Nat.digitChar (n % 10)], rfl, ?_, by simp⟩
      intro c hc
      simp only [List.mem_singleton] at hc
      subst hc
      exact hd
    · rw [if_neg h0]
      obtain ⟨pre, hpre, hall, _⟩ := ih (n / 10) (Nat.digitChar (n % 10) :: ds)
      refine ⟨pre ++ [Nat.digitChar (n % 10)], ?_, ?_, by simp⟩
      · rw [hpre]
        simp
      · intro c hc
        rcases List.mem_append.mp hc with hc | hc
        · exact hall c hc
        · simp only [List.mem_singleton] at hc
          subst hc
          exact hd

theorem natRepr_head (n : Nat) :
    ∃ c rest, (toString n).data = c :: rest ∧ c.isDigit = true := by
  obtain ⟨pre, hpre, hall, hne⟩ := toDigitsCore_digits (n + 1) n []
  have hdata : (toString n).data = pre := by
    show (Nat.toDigits 10 n).asString.data = pre
    simp only [Nat.toDigits, hpre, List.append_nil, List.asString]
  cases pre with
  | nil => exact absurd rfl (hne (Nat.succ_pos n))
  | cons c rest => exact ⟨c, rest, hdata, hall c (List.mem_cons_self _ _)⟩

theorem intRepr_head (n : Int) :
    ∃ c rest, (toString n).data = c :: rest ∧ (c = '-' ∨ c.isDigit = true) := by
  cases n with
  | ofNat m =>
    obtain ⟨c, rest, h, hc⟩ := natRepr_head m
    exact ⟨c, rest, h, Or.inr hc⟩
  | negSucc m =>
    refine ⟨'-', (toString (m + 1)).data, ?_, Or.inl rfl⟩
    show ("-" ++ toString (m + 1)).data = _
    rw [String.data_append]
    rfl

theorem numberText_head (negative : Bool) (s : Nat) (n : Int) :
    ∃ c rest, (numberText negative s n).data = c :: rest ∧ (c = '-' ∨ c.isDigit = true) := by
  obtain ⟨c, rest, h, hc⟩ := natRepr_head s
  unfold numberText
  simp only [h]
  cases negative with
  | true => exact ⟨'-', _, rfl, Or.inl rfl⟩
  | false =>
    simp only [Bool.false_eq_true, if_false, List.nil_append]
    split
    · exact ⟨c, _, rfl, Or.inr hc⟩
    · split
      · rename_i hn
        obtain ⟨m, hm⟩ : ∃ m, n.toNat = m + 1 := ⟨n.toNat - 1, by omega⟩
        rw [hm]
        exact ⟨c, _, rfl, Or.inr hc⟩
      · split
        · exact ⟨'0', _, rfl, Or.inr (by decide)⟩
        · split
          · exact ⟨c, _, rfl, Or.inr hc⟩
          · exact ⟨c, _, rfl, Or.inr hc⟩

/-- The first character of the serialisation of a finite number is a digit
or the minus sign. -/
theorem serialHead_real (negative : Bool) (s : Nat) (n : Int) :
    ∃ c, serialHead (.real negative s n) = some c ∧ (c = '-' ∨ c.isDigit = true) := by
  obtain ⟨c, rest, h, hc⟩ := numberText_head negative s n
  exact ⟨c, by simp [serialHead, stringify, h], hc⟩

/-- A first character that is a digit or the minus sign is read as that of
a number. -/
theorem typeOfHead_digit (c : Char) (hd : c = '-' ∨ c.isDigit = true) :
    typeOfHead (some c) = .Number := by
  have hne : c ≠ 'n' ∧ c ≠ 't' ∧ c ≠ 'f' ∧ c ≠ '"' ∧ c ≠ '[' ∧ c ≠ '\x7b' := by
    rcases hd with rfl | hd
    · decide
    · refine ⟨?_, ?_, ?_, ?_, ?_, ?_⟩ <;> (rintro rfl; revert hd; decide)
  simp [typeOfHead, hne.1, hne.2.1, hne.2.2.1, hne.2.2.2.1, hne.2.2.2.2.1, hne.2.2.2.2.2]

/-- The first character of the serialisation of an integer is a digit or
the minus sign. -/
theorem serialHead_num (n : Int) :
    ∃ c, serialHead (.num n) = some c ∧ (c = '-' ∨ c.isDigit = true) := by
  obtain ⟨c, rest, h, hc⟩ := intRepr_head n
  exact ⟨c, by simp [serialHead, stringify, h], hc⟩

theorem serialHead_eq_of_stringify_eq (a b : JsVal) (h : stringify a = stringify b) :
    serialHead a = serialHead b := by
  simp [serialHead, h]

theorem serialHead_str (s : String) : serialHead (.str s) = some '"' := by
  simp [serialHead, stringify, jsonQuote]

theorem serialHead_arr (xs : List JsVal) : serialHead (.arr xs) = some '[' := by
  simp only [serialHead, stringify, Option.some_bind, String.data_append]
  rfl

theorem serialHead_obj (kvs : List (String × JsVal)) : serialHead (.obj kvs) = some '\x7b' := by
  simp only [serialHead, stringify, Option.some_bind, String.data_append]
  rfl

/-- C17 (counterexample): `NaN` is a number and `null` is not, yet the
comparator treats them as equal (both are serialised as `null`), and
likewise `Infinity`; the handler reports a function that returns `NaN` as
passing a test that expects `null`.  An object whose `toJSON` method returns
`5` is not a number, and passes against the expected number `5`. -/
theorem C17_nan_null_counterexample :
    jsType .nan = .Number ∧ jsType .null = .Null ∧
    comparator .nan .null = true ∧ comparator (.inf true) .null = true ∧
    (execute vmReturnsNaN
      ⟨some "function f() \x7b return 0 / 0; \x7d", some [⟨.arr [], .null⟩], .str "t1"⟩).allPassed
      = some true ∧
    (Returned.other .Mapping (some "5")).type ≠ jsType (.num 5) ∧
    comparatorOn (.other .Mapping (some "5")) (.num 5) = .ok true ∧
    (execute vmReturnsToJSON
      ⟨some "function f() \x7b return \x7b toJSON() \x7b return 5; \x7d \x7d; \x7d",
        some [⟨.arr [], .num 5⟩], .str "t1"⟩).allPassed = some true := by
  refine ⟨by decide, by decide, by decide, by decide, by decide, by decide, by rfl, by decide⟩

/-- Apart from the numbers that are not finite, the first character of the
serialisation of a value tells its type. -/
theorem typeOfHead_serialHead (v : JsVal) (h : isNonFinite v = false) :
    typeOfHead (serialHead v) = jsType v := by
  cases v with
  | undefined => rfl
  | null => rfl
  | nan => simp [isNonFinite] at h
  | inf positive => simp [isNonFinite] at h
  | bool b => cases b <;> rfl
  | num n =>
    obtain ⟨c, hc, hd⟩ := serialHead_num n
    rw [hc, typeOfHead_digit c hd]
    rfl
  | real negative s n =>
    obtain ⟨c, hc, hd⟩ := serialHead_real negative s n
    rw [hc, typeOfHead_digit c hd]
    rfl
  | str s => rw [serialHead_str]; rfl
  | arr xs => rw [serialHead_arr]; rfl
  | obj kvs => rw [serialHead_obj]; rfl
  | error name message => rfl

/-- Plain values of different types have different serialisations, other
than a number that is not finite and `null`. -/
theorem stringify_ne_of_types (a b : JsVal) (ht : jsType a ≠ jsType b)
    (h1 : ¬ (isNonFinite a = true ∧ b = .null)) (h2 : ¬ (a = .null ∧ isNonFinite b = true)) :
    stringify a ≠ stringify b := by
  intro h
  have hh := serialHead_eq_of_stringify_eq a b h
  have nonFinite : ∀ x y : JsVal, isNonFinite x = true → jsType x ≠ jsType y →
      serialHead x = serialHead y → y = .null := by
    intro x y hx hxy hhead
    have hxn : serialHead x = some 'n' ∧ jsType x = .Number := by
      cases x <;> simp [isNonFinite] at hx <;> exact ⟨rfl, rfl⟩
    by_cases hy : isNonFinite y = true
    · have hyn : jsType y = .Number := by
        cases y <;> simp [isNonFinite] at hy <;> rfl
      exact absurd (hxn.2.trans hyn.symm) hxy
    · have hty := typeOfHead_serialHead y (by simpa using hy)
      rw [← hhead, hxn.1] at hty
      have hnull : jsType y = .Null := hty.symm
      cases y <;> simp_all [jsType]
  by_cases ha : isNonFinite a = true
  · exact h1 ⟨ha, nonFinite a b ha ht hh⟩
  · by_cases hb : isNonFinite b = true
    · exact h2 ⟨nonFinite b a hb (Ne.symm ht) hh.symm, hb⟩
    · apply ht
      rw [← typeOfHead_serialHead a (by simpa using ha),
        ← typeOfHead_serialHead b (by simpa using hb), hh]

/-- C17 (amended): the comparator compares serialisations.  For a returned
output and an expected value of different types:
when the output is plain data, `passed` is false, unless one of the two is a
number that is not finite (`NaN`, `Infinity`, `-Infinity`) and the other is
`null`;
when `JSON.stringify` throws on the output (a `BigInt`, a cycle), the
comparison throws and the result the `catch` clause records has `passed`
false;
for any other output that `JSON.stringify` serialises (an object with
`toJSON`, a boxed primitive, a function, a symbol), the comparison answers
whether its serialisation is that of the expected value, whatever the type
of the output.
In each case the `passed` flag of the result of the test case is true
exactly when the comparison answers true. -/
theorem C17_different_types_differ (output : Returned) (expected : JsVal)
    (ht : output.type ≠ jsType expected) :
    (∀ a, output = .plain a →
      ¬ (isNonFinite a = true ∧ expected = .null) →
      ¬ (a = .null ∧ isNonFinite expected = true) →
      comparatorOn output expected = .ok false) ∧
    (∀ t e, output = .unserialisable t e → comparatorOn output expected = .error e) ∧
    (∀ t text, output = .other t text →
      comparatorOn output expected = .ok (decide (text = stringify expected))) ∧
    (∀ input r, slotOf ⟨input, expected⟩ (.ok output) = .ok r →
      (r.passed = true ↔ comparatorOn output expected = .ok true)) := by
  refine ⟨?_, ?_, ?_, ?_⟩
  · intro a ha h1 h2
    subst ha
    have hne := stringify_ne_of_types a expected ht h1 h2
    simp [comparatorOn, jsonStringify, hne]
  · intro t e ho
    subst ho
    rfl
  · intro t text ho
    subst ho
    rfl
  · intro input r hslot
    unfold slotOf at hslot
    unfold comparatorOn
    cases hj : jsonStringify output with
    | error e =>
      simp only [hj] at hslot
      have hp := (caughtSlot_input_expected _ e r hslot).2.2.2.1
      simp [hp]
    | ok text =>
      simp only [hj, Except.ok.injEq] at hslot
      subst hslot
      simp

theorem C17_different_types_differ_witness :
    comparatorOn (.plain (.str "5")) (.num 5) = .ok false :=
  (C17_different_types_differ (.plain (.str "5")) (.num 5) (by decide)).1 (.str "5") rfl
    (by decide) (by decide)

theorem stringifyItems_append (xs ys : List JsVal) :
    stringifyItems (xs ++ ys) = stringifyItems xs ++ stringifyItems ys := by
  induction xs with
  | nil => rfl
  | cons x xs ih => simp [stringifyItems, ih]

theorem stringifyFields_append (xs ys : List (String × JsVal)) :
    stringifyFields (xs ++ ys) = stringifyFields xs ++ stringifyFields ys := by
  induction xs with
  | nil => rfl
  | cons p xs ih =>
    obtain ⟨k, v⟩ := p
    simp only [List.cons_append, stringifyFields]
    cases stringify v <;> simp [ih]

theorem intercalate_go_length (acc s : String) (l : List String) :
    (String.intercalate.go acc s l).length =
      acc.length + (l.map (fun a => s.length + a.length)).sum := by
  induction l generalizing acc with
  | nil => simp [String.intercalate.go]
  | cons a as ih =>
    simp only [String.intercalate.go, ih, String.length_append, List.map_cons, List.sum_cons]
    omega

theorem sum_map_succ_length (l : List String) :
    (l.map (fun a => ",".length + a.length)).sum = l.length + (l.map String.length).sum := by
  induction l with
  | nil => rfl
  | cons a as ih =>
    simp only [List.map_cons, List.sum_cons, ih, List.length_cons]
    have : ",".length = 1 := rfl
    omega

/-- The length of a comma-separated join. -/
theorem intercalate_length (l : List String) :
    (",".intercalate l).length = (l.map String.length).sum + (l.length - 1) := by
  cases l with
  | nil => rfl
  | cons a as =>
    simp only [String.intercalate, intercalate_go_length, sum_map_succ_length, List.map_cons,
      List.sum_cons, List.length_cons]
    omega

theorem intercalate_length_insert (A B : List String) (x : String) :
    (",".intercalate (A ++ [x] ++ B)).length =
      x.length + ((A.map String.length).sum + (B.map String.length).sum + A.length + B.length) := by
  rw [intercalate_length]
  simp only [List.map_append, List.sum_append, List.length_append, List.map_cons, List.map_nil,
    List.sum_cons, List.sum_nil, List.length_cons, List.length_nil]
  omega

theorem intercalate_length_le (A B : List String) :
    (",".intercalate (A ++ B)).length ≤
      (A.map String.length).sum + (B.map String.length).sum + A.length + B.length := by
  rw [intercalate_length]
  simp only [List.map_append, List.sum_append, List.length_append]
  omega

theorem comparator_comm (a b : JsVal) : comparator a b = comparator b a := by
  unfold comparator
  by_cases h : stringify a = stringify b
  · simp [h]
  · have h2 : ¬ stringify b = stringify a := fun e => h e.symm
    simp [h, h2]

/-- Values with the same serialisation keep the same serialisation when put
at the same position of a larger value. -/
theorem fill_congr (C : ValueContext) (x y : JsVal) (h : stringify x = stringify y) :
    stringify (C.fill x) = stringify (C.fill y) := by
  induction C with
  | here => exact h
  | inSequence before inner after ih =>
    simp only [ValueContext.fill, stringify, stringifyItems_append, stringifyItems, ih]
  | inMapping before key inner after ih =>
    simp only [ValueContext.fill, stringify, stringifyFields_append, stringifyFields, ih]

/-- Two serialisable values put at the same position of a larger value give
serialisations whose lengths differ by as much as their own. -/
theorem fill_length (C : ValueContext) (x y : JsVal) (sx sy : String)
    (hx : stringify x = some sx) (hy : stringify y = some sy) :
    ∃ tx ty, stringify (C.fill x) = some tx ∧ stringify (C.fill y) = some ty ∧
      tx.length + sy.length = ty.length + sx.length := by
  induction C with
  | here => exact ⟨sx, sy, hx, hy, by omega⟩
  | inSequence before inner after ih =>
    obtain ⟨tx, ty, htx, hty, hlen⟩ := ih
    refine ⟨_, _, rfl, rfl, ?_⟩
    simp only [stringifyItems_append, stringifyItems, htx, hty, Option.getD_some,
      String.length_append, intercalate_length_insert]
    omega
  | inMapping before key inner after ih =>
    obtain ⟨tx, ty, htx, hty, hlen⟩ := ih
    refine ⟨_, _, rfl, rfl, ?_⟩
    simp only [stringifyFields_append, stringifyFields, htx, hty,
      String.length_append, intercalate_length_insert]
    omega

theorem comparator_fill_of_length_ne (C : ValueContext) (x y : JsVal) (sx sy : String)
    (hx : stringify x = some sx) (hy : stringify y = some sy) (hne : sx.length ≠ sy.length) :
    comparator (C.fill x) (C.fill y) = false := by
  obtain ⟨tx, ty, htx, hty, hlen⟩ := fill_length C x y sx sy hx hy
  unfold comparator
  rw [decide_eq_false_iff_not, htx, hty]
  intro h
  injection h with h
  rw [h] at hlen
  omega

/-- A mapping that holds `null` under a key has a longer serialisation than
the mapping without that entry. -/
theorem mapping_null_entry_longer (before after : List (String × JsVal)) (key : String) :
    ∃ sx sy,
      stringify (.obj (before ++ after)) = some sx ∧
      stringify (.obj (before ++ [(key, .undefined)] ++ after)) = some sx ∧
      stringify (.obj (before ++ [(key, .null)] ++ after)) = some sy ∧
      sx.length < sy.length := by
  refine ⟨_, _, rfl, ?_, rfl, ?_⟩
  · simp only [stringify, stringifyFields_append, stringifyFields, List.append_nil]
  · simp only [stringifyFields_append, stringifyFields, stringify, String.length_append,
      intercalate_length_insert]
    have h1 := intercalate_length_le (stringifyFields before) (stringifyFields after)
    have h2 : ":".length = 1 := rfl
    have h3 : "null".length = 4 := rfl
    omega

/-- C18 (counterexample): the arrays `[undefined]` and `[null]` differ only
in that one has an absent value where the other has `null`, and the
comparator treats them as equal; the handler reports a function returning
`[undefined]` as passing a test that expects `[null]`. -/
theorem C18_sequence_counterexample :
    comparator (.arr [.undefined]) (.arr [.null]) = true ∧
    (execute vmReturnsUndefinedElement
      ⟨some "function f() \x7b return [undefined]; \x7d", some [⟨.arr [], .arr [.null]⟩],
        .str "t1"⟩).allPassed = some true := by
  decide

/-- C18 (amended): the comparator tells `null` from absence at the top
level and under a key of a mapping, not inside a sequence.  For an output
and an expected value that differ only in that one has an absent value where
the other has `null`: when the value is the whole value, `passed` is false;
when it is the value under a key of a mapping (the key being set to
`undefined` or missing), at any depth of nesting, `passed` is false; when
it is an element of a sequence, at any depth of nesting, `undefined` is
serialised as `null` and `passed` is true. -/
theorem C18_null_versus_absence :
    (comparator .undefined .null = false ∧ comparator .null .undefined = false) ∧
    (∀ (C : ValueContext) (before after : List (String × JsVal)) (key : String),
      comparator (C.fill (.obj (before ++ [(key, .undefined)] ++ after)))
        (C.fill (.obj (before ++ [(key, .null)] ++ after))) = false ∧
      comparator (C.fill (.obj (before ++ [(key, .null)] ++ after)))
        (C.fill (.obj (before ++ [(key, .undefined)] ++ after))) = false ∧
      comparator (C.fill (.obj (before ++ after)))
        (C.fill (.obj (before ++ [(key, .null)] ++ after))) = false ∧
      comparator (C.fill (.obj (before ++ [(key, .null)] ++ after)))
        (C.fill (.obj (before ++ after))) = false) ∧
    (∀ (C : ValueContext) (before after : List JsVal),
      comparator (C.fill (.arr (before ++ [.undefined] ++ after)))
        (C.fill (.arr (before ++ [.null] ++ after))) = true ∧
      comparator (C.fill (.arr (before ++ [.null] ++ after)))
        (C.fill (.arr (before ++ [.undefined] ++ after))) = true) := by
  refine ⟨⟨by decide, by decide⟩, ?_, ?_⟩
  · intro C before after key
    obtain ⟨sx, sy, h0, hu, hn, hlt⟩ := mapping_null_entry_longer before after key
    have a1 := comparator_fill_of_length_ne C _ _ sx sy hu hn (by omega)
    have a2 := comparator_fill_of_length_ne C _ _ sx sy h0 hn (by omega)
    refine ⟨a1, ?_, a2, ?_⟩
    · rw [comparator_comm]
      exact a1
    · rw [comparator_comm]
      exact a2
  · intro C before after
    have hs : stringify (.arr (before ++ [.undefined] ++ after)) =
        stringify (.arr (before ++ [.null] ++ after)) := by
      simp [stringify, stringifyItems_append, stringifyItems]
    have hc := fill_congr C _ _ hs
    constructor
    · unfold comparator
      rw [hc]
      simp
    · unfold comparator
      rw [hc]
      simp

/-! ## C20: crediting progress -/

/-- After a report that is answered with the updated user, the task is in
`completedTasks` and the experience points have grown by `xpEarned`. -/
theorem progress_first_report (historyTime streakTime : Int) (user result : User)
    (stored : Option User) (taskId : String) (xpEarned : Int)
    (hnew : taskId ∉ user.completedTasks)
    (h : progress historyTime streakTime (some user) taskId xpEarned = (.ok result, stored)) :
    stored = some result ∧ taskId ∈ result.completedTasks ∧ result.xp = user.xp + xpEarned := by
  unfold progress at h
  simp only [hnew, if_false] at h
  split at h
  · simp only [Prod.mk.injEq, ProgressResponse.ok.injEq] at h
    obtain ⟨h1, h2⟩ := h
    subst h1
    refine ⟨h2.symm, ?_, ?_⟩
    · simp [updateStreak]
    · simp [updateStreak]
  · simp at h

/-- C20: crediting progress is idempotent per task.  For every user and
every `taskId` already in the user's `completedTasks`, the progress update
answers with the user as it is — `xp`, `level`, `completedTasks`,
`taskHistory` and `streak` unchanged — and stores nothing new; so a task
reported a second time, after a first report that was credited, leaves the
user as the first report made it, with the experience points awarded once.
The client's `handleTaskComplete` changes nothing, and calls no service, for
a task already in its completed set. -/
theorem C20_progress_idempotent (historyTime streakTime : Int) (user : User)
    (taskId : String) (xpEarned : Int) (st : ClientState)
    (hdone : taskId ∈ user.completedTasks) (hclient : taskId ∈ st.completedTasks) :
    progress historyTime streakTime (some user) taskId xpEarned = (.ok user, some user) ∧
    (∀ (t1 t2 : Int) (before first : User) (stored : Option User) (xp1 : Int),
      taskId ∉ before.completedTasks →
      progress t1 t2 (some before) taskId xp1 = (.ok first, stored) →
      progress historyTime streakTime stored taskId xpEarned = (.ok first, some first) ∧
        first.xp = before.xp + xp1) ∧
    handleTaskComplete st taskId xpEarned = (st, none) := by
  refine ⟨?_, ?_, ?_⟩
  · simp [progress, hdone]
  · intro t1 t2 before first stored xp1 hnew h
    obtain ⟨hs, hmem, hxp⟩ := progress_first_report t1 t2 before first stored taskId xp1 hnew h
    subst hs
    exact ⟨by simp [progress, hmem], hxp⟩
  · simp [handleTaskComplete, hclient]

theorem C20_progress_idempotent_witness :
    progress 100000000 100000001 (some sampleUser) "two-sum" 100 =
      (.ok sampleUser, some sampleUser) ∧
    (∀ (t1 t2 : Int) (before first : User) (stored : Option User) (xp1 : Int),
      "two-sum" ∉ before.completedTasks →
      progress t1 t2 (some before) "two-sum" xp1 = (.ok first, stored) →
      progress 100000000 100000001 stored "two-sum" 100 = (.ok first, some first) ∧
        first.xp = before.xp + xp1) ∧
    handleTaskComplete sampleClientState "two-sum" 100 = (sampleClientState, none) :=
  C20_progress_idempotent 100000000 100000001 sampleUser "two-sum" 100 sampleClientState
    (by decide) (by decide)

/-! ## C21: the streak -/

/-- The method `updateStreak` keeps `longest` at least `current` whenever
`longest` is already at least 1, or fewer than two whole days have passed
since the last activity. -/
theorem updateStreak_keeps_longest (now : Int) (user : User)
    (hinv : user.streak.current ≤ user.streak.longest)
    (h : 1 ≤ user.streak.longest ∨
      Int.fdiv (now - user.streak.lastActivity) (1000 * 60 * 60 * 24) ≤ 1) :
    (updateStreak now user).streak.current ≤ (updateStreak now user).streak.longest := by
  unfold updateStreak
  simp only []
  by_cases h1 : Int.fdiv (now - user.streak.lastActivity) (1000 * 60 * 60 * 24) = 1
  · simp only [h1, if_true]
    split <;> omega
  · simp only [h1, if_false]
    by_cases h2 : Int.fdiv (now - user.streak.lastActivity) (1000 * 60 * 60 * 24) > 1
    · simp only [h2, if_true]
      rcases h with h | h
      · exact h
      · omega
    · simp only [h2, if_false]
      exact hinv

/-- C21 (the code at the failing input): a user with the schema defaults
(`current` 0, `longest` 0) satisfies `longest >= current`; two days after
the last activity `updateStreak` sets `current` to 1 and leaves `longest`
at 0, so `longest >= current` no longer holds.  The progress update stores
that streak when such a user completes a first task. -/
theorem C21_reset_exceeds_longest :
    (newUser "ada" 0).streak.longest ≥ (newUser "ada" 0).streak.current ∧
    (172800000 : Int) ≥ (newUser "ada" 0).streak.lastActivity ∧
    (updateStreak 172800000 (newUser "ada" 0)).streak =
      { current := 1, longest := 0, lastActivity := 172800000 } ∧
    ¬ ((updateStreak 172800000 (newUser "ada" 0)).streak.longest ≥
        (updateStreak 172800000 (newUser "ada" 0)).streak.current) ∧
    (progress 172800000 172800000 (some (newUser "ada" 0)) "two-sum" 100).2.map
        (fun user => user.streak) =
      some { current := 1, longest := 0, lastActivity := 172800000 } := by
  decide

end LearningCurve
